import Mathlib

/-!
Verification of the MSF document engine (deterministic-extraction repository).

Shallow embedding of the repository's leaf services and document model:
identifier service (uuidGenerator), line indexer (xmlLineIndexer),
template engine (templateExtractor), page-mapping index (pdfPageMapper),
and the parser/serializer pair. JavaScript strings are modelled as Lean
`String` values, with character-level operations written over `String.data`;
JavaScript `Map` stores are modelled extensionally by their lookup function.
-/

/-! ## Identifier service (src/unnamed/part_001, uuidGenerator) -/

/-- Left brace character, written by code point. -/
def lbrace : Char := Char.ofNat 123

/-- Right brace character, written by code point. -/
def rbrace : Char := Char.ofNat 125

/-- Character class of the regex fragment `[0-9A-F]`: decimal digits and
uppercase hex letters, enumerated exactly. -/
def isHexUpper (c : Char) : Bool :=
  c = '0' || c = '1' || c = '2' || c = '3' || c = '4' || c = '5' || c = '6' ||
  c = '7' || c = '8' || c = '9' || c = 'A' || c = 'B' || c = 'C' || c = 'D' ||
  c = 'E' || c = 'F'

/-- Character class of canonical lowercase hex, the alphabet of
`crypto.randomUUID()` output: decimal digits and lowercase hex letters. -/
def isHexLower (c : Char) : Bool :=
  c = '0' || c = '1' || c = '2' || c = '3' || c = '4' || c = '5' || c = '6' ||
  c = '7' || c = '8' || c = '9' || c = 'a' || c = 'b' || c = 'c' || c = 'd' ||
  c = 'e' || c = 'f'

/-- Consume one expected character, as an anchored regex literal does. -/
def expectChar (c : Char) : List Char → Option (List Char)
  | [] => none
  | d :: cs => if d = c then some cs else none

/-- Consume exactly `n` characters of the class `[0-9A-F]`, as the regex
fragment `[0-9A-F]{n}` does. -/
def hexRun : Nat → List Char → Option (List Char)
  | 0, cs => some cs
  | _ + 1, [] => none
  | n + 1, c :: cs => if isHexUpper c then hexRun n cs else none

/-- Translation of `isValidMOXUUID` (uuidGenerator): the anchored regex
`^\x7b[0-9A-F]{8}-[0-9A-F]{4}-[0-9A-F]{4}-[0-9A-F]{4}-[0-9A-F]{12}\x7d$`
run as a sequential matcher that must consume the whole string. -/
def isValidMOXUUID (s : String) : Bool :=
  (do
    let r ← expectChar lbrace s.data
    let r ← hexRun 8 r
    let r ← expectChar '-' r
    let r ← hexRun 4 r
    let r ← expectChar '-' r
    let r ← hexRun 4 r
    let r ← expectChar '-' r
    let r ← hexRun 4 r
    let r ← expectChar '-' r
    let r ← hexRun 12 r
    let r ← expectChar rbrace r
    pure r) = some []

/-- Translation of `generateMOXUUID` (uuidGenerator): wrap the uppercased
output of `crypto.randomUUID()` in braces. The platform call is modelled by
the argument `r`; `toUpperCase` on ASCII is character-wise `Char.toUpper`,
and the template literal is concatenation. -/
def generateMOXUUID (r : String) : String :=
  String.mk (lbrace :: r.data.map Char.toUpper ++ [rbrace])

/-- Translation of `generateNullUUID` (uuidGenerator): the all-zero
identifier. -/
def generateNullUUID : String :=
  String.mk (lbrace :: "00000000-0000-0000-0000-000000000000".data ++ [rbrace])

/-- The output contract of the platform API `crypto.randomUUID()` (not part
of this repository): the canonical lowercase hyphenated 8-4-4-4-12 form. -/
def randomUUIDCanonical (r : String) : Prop :=
  ∃ g1 g2 g3 g4 g5 : List Char,
    g1.length = 8 ∧ g2.length = 4 ∧ g3.length = 4 ∧ g4.length = 4 ∧
    g5.length = 12 ∧
    (∀ c ∈ g1 ++ g2 ++ g3 ++ g4 ++ g5, isHexLower c = true) ∧
    r.data = g1 ++ ('-' :: (g2 ++ ('-' :: (g3 ++ ('-' :: (g4 ++
      ('-' :: g5)))))))

/-- The identifier grammar as the specification words it: brace-delimited
uppercase hex digit groups of exact lengths 8-4-4-4-12, hyphen-separated,
nothing else. -/
def MOXGrammar (s : String) : Prop :=
  ∃ g1 g2 g3 g4 g5 : List Char,
    g1.length = 8 ∧ g2.length = 4 ∧ g3.length = 4 ∧ g4.length = 4 ∧
    g5.length = 12 ∧
    (∀ c ∈ g1 ++ g2 ++ g3 ++ g4 ++ g5, isHexUpper c = true) ∧
    s.data = lbrace :: (g1 ++ ('-' :: (g2 ++ ('-' :: (g3 ++ ('-' :: (g4 ++
      ('-' :: (g5 ++ [rbrace])))))))))

/-! ## Page-mapping index (src/src/web/frontend/src/services/pdfPageMapper.ts)

The in-memory `Map' store is modelled extensionally by its lookup function.
Page numbers are modelled as `Int` so that the non-positive inputs the code
guards against are representable. -/

/-- One entry of the bulk-load payload (`PageMapping` in pdfPageMapper). -/
structure PageMapping where
  functionPUI : String
  pageNumber : Int
deriving DecidableEq, Repr

/-- The page-mapping store, as its lookup function. -/
def PageStore : Type := String → Option Int

/-- The store at module load: empty. -/
def emptyStore : PageStore := fun _ => none

/-- `Map.set`: point update of the lookup function. -/
def mapSet (s : PageStore) (k : String) (v : Int) : PageStore :=
  fun k' => if k' = k then some v else s k'

/-- Translation of `setPageMapping`: reject a page number below one, reject
an empty (falsy) identifier, otherwise store. The rejected cases return with
the store untouched (the code logs a warning and returns undefined). -/
def setPageMapping (s : PageStore) (functionPUI : String) (pageNumber : Int) :
    PageStore :=
  if pageNumber < 1 then s
  else if functionPUI = "" then s
  else mapSet s functionPUI pageNumber

/-- Translation of `getPageMapping`: `map.get(k) || null` returns null both
for a missing key and for a stored falsy value; among integers the only
falsy value is zero. -/
def getPageMapping (s : PageStore) (functionPUI : String) : Option Int :=
  match s functionPUI with
  | some p => if p = 0 then none else some p
  | none => none

/-- Translation of `removePageMapping`: `Map.delete`. -/
def removePageMapping (s : PageStore) (functionPUI : String) : PageStore :=
  fun k' => if k' = functionPUI then none else s k'

/-- Translation of `clearAllPageMappings`: `Map.clear`. -/
def clearAllPageMappings (_ : PageStore) : PageStore := emptyStore

/-- Translation of `loadPageMappings`: clear the store, then run every entry
of the payload through `setPageMapping` in order. -/
def loadPageMappings (mappings : List PageMapping) (s : PageStore) :
    PageStore :=
  mappings.foldl
    (fun acc e => setPageMapping acc e.functionPUI e.pageNumber)
    (clearAllPageMappings s)

/-- An entry passes `setPageMapping` validation: page at least one and a
non-empty identifier. -/
def validMapping (e : PageMapping) : Bool :=
  decide (1 ≤ e.pageNumber) && decide (e.functionPUI ≠ "")

/-- The store contents `loadPageMappings` is expected to leave behind: for
each key, the page number of the last payload entry for that key that
passes validation. -/
def lastValidPage (mappings : List PageMapping) (k : String) : Option Int :=
  ((mappings.filter validMapping).reverse.find?
    (fun e => e.functionPUI = k)).map PageMapping.pageNumber

/-- Translation of `estimatePageNumber`: the first function maps to page 1;
with a truthy total page count the pages are distributed by
`Math.floor(totalPages / totalFunctions)` per function, clamped to at least
one; otherwise a default span of three pages per function is used. A missing
or zero `totalPages` is falsy in the source, hence the zero test. -/
def estimatePageNumber (sequence totalFunctions : Nat)
    (totalPages : Option Nat) : Nat :=
  if sequence = 0 then 1
  else
    match totalPages with
    | some t =>
        if t ≠ 0 then max 1 (1 + sequence * (t / totalFunctions))
        else 1 + sequence * 3
    | none => 1 + sequence * 3

/-- Every page number held in the store is at least one. -/
def StoreValid (s : PageStore) : Prop :=
  ∀ k p, s k = some p → 1 ≤ p

/-! ## Line indexer (src/unnamed/part_000, xmlLineIndexer)

The scanning loop of `extractFunctionLineNumbers` walks the text from
`indexOf` of one newline to the next; that walk is modelled by `msfLines`,
which yields exactly the substrings the loop binds to `line` (note the loop
stops at `currentPos < length`, so text ending in a newline yields no final
empty line). The per-line regex `<functionname>([^<]+)</functionname>` is
modelled by `tryMatchAt`/`lineMatch`: at a given start the greedy non-empty
`[^<]+` run is forced to be the maximal run of non-angle characters, because
shrinking it would put a non-angle character where the closing tag's own
opening angle must sit; the regex engine therefore matches at the leftmost
start position whose maximal run is non-empty and is followed by the closing
literal. -/

/-- One index entry: entity name, 1-based line number, character offset of
the match within its line (`match.index`). -/
structure FnEntry where
  name : String
  lineNumber : Nat
  columnStart : Nat
deriving DecidableEq, Repr

/-- The opening tag literal of the regex. -/
def tagOpen : List Char := "<functionname>".data

/-- The closing tag literal of the regex. -/
def tagClose : List Char := "</functionname>".data

/-- The body of the scanning loop, one iteration per character: `cur` is the
current line read so far (reversed). A newline closes the line; a newline in
final position closes the text as well, because the loop guard is
`currentPos < length`. -/
def msfLinesGo : List Char → List Char → List (List Char)
  | cur, [] => [cur.reverse]
  | cur, c :: rest =>
      if c = '\n' then
        match rest with
        | [] => [cur.reverse]
        | _ :: _ => cur.reverse :: msfLinesGo [] rest
      else msfLinesGo (c :: cur) rest

/-- The lines the scanning loop visits: segments between newlines, with no
final empty segment when the text ends in a newline, and none at all for the
empty text. -/
def msfLines (cs : List Char) : List (List Char) :=
  match cs with
  | [] => []
  | _ => msfLinesGo [] cs

/-- The loop's trailing carriage-return strip: `line.endsWith('\r')` then
`line.slice(0, -1)`. -/
def stripCR (l : List Char) : List Char :=
  if l.getLast? = some '\r' then l.dropLast else l

/-- The regex tried at one start position: the opening literal, a forced
maximal non-empty run of non-angle characters, then the closing literal.
Returns the capture group. -/
def tryMatchAt (cs : List Char) : Option (List Char) :=
  if tagOpen.isPrefixOf cs then
    let after := cs.drop tagOpen.length
    let cap := after.takeWhile (fun c => c ≠ '<')
    if cap ≠ [] ∧ tagClose.isPrefixOf (after.drop cap.length) then some cap
    else none
  else none

/-- `line.match(regex)`: the leftmost position with a match, returning the
capture group and `match.index`. The second argument is the offset already
scanned. -/
def lineMatch : List Char → Nat → Option (List Char × Nat)
  | [], _ => none
  | c :: rest, i =>
      match tryMatchAt (c :: rest) with
      | some cap => some (cap, i)
      | none => lineMatch rest (i + 1)

/-- `String.prototype.trim` on the capture, character-wise (the JavaScript
whitespace class restricted to the ASCII whitespace the capture can hold). -/
def trimChars (l : List Char) : List Char :=
  ((l.dropWhile Char.isWhitespace).reverse.dropWhile Char.isWhitespace).reverse

/-- The scanning loop of `extractFunctionLineNumbers`: line list, current
1-based line number, one entry pushed per line with a match. -/
def extractFunctionLineNumbersGo : List (List Char) → Nat → List FnEntry
  | [], _ => []
  | l :: ls, n =>
      match lineMatch (stripCR l) 0 with
      | some (cap, i) =>
          ⟨String.mk (trimChars cap), n, i⟩ ::
            extractFunctionLineNumbersGo ls (n + 1)
      | none => extractFunctionLineNumbersGo ls (n + 1)

/-- Translation of `extractFunctionLineNumbers` (xmlLineIndexer): one
forward scan, line number starting at 1. An empty input returns the empty
index through the same path as the source's falsy guard. -/
def extractFunctionLineNumbers (xmlString : String) : List FnEntry :=
  extractFunctionLineNumbersGo (msfLines xmlString.data) 1

/-- Translation of `findFunctionByLineNumber`'s while loop: binary search
over `[left, right]` with `Math.floor((left + right) / 2)`, which is
euclidean division by two. The out-of-range read `functionIndex[mid]` cannot
occur on the loop's reachable states; it is modelled as returning null. -/
def findFunctionLoop (functionIndex : List FnEntry) (lineNumber : Nat)
    (left right : Int) : Option FnEntry :=
  if h : left ≤ right then
    match functionIndex.get? ((left + right) / 2).toNat with
    | none => none
    | some current =>
        if current.lineNumber = lineNumber then some current
        else if current.lineNumber < lineNumber then
          findFunctionLoop functionIndex lineNumber ((left + right) / 2 + 1)
            right
        else
          findFunctionLoop functionIndex lineNumber left
            ((left + right) / 2 - 1)
  else none
termination_by (right + 1 - left).toNat
decreasing_by
  · have h1 : left ≤ (left + right) / 2 := by
      have h2 := Int.ediv_le_ediv (by norm_num : (0 : Int) < 2)
        (by omega : 2 * left ≤ left + right)
      rwa [Int.mul_ediv_cancel_left left (by norm_num)] at h2
    have h3 : (left + right) / 2 ≤ right := by
      have h2 := Int.ediv_le_ediv (by norm_num : (0 : Int) < 2)
        (by omega : left + right ≤ 2 * right)
      rwa [Int.mul_ediv_cancel_left right (by norm_num)] at h2
    omega
  · have h1 : left ≤ (left + right) / 2 := by
      have h2 := Int.ediv_le_ediv (by norm_num : (0 : Int) < 2)
        (by omega : 2 * left ≤ left + right)
      rwa [Int.mul_ediv_cancel_left left (by norm_num)] at h2
    have h3 : (left + right) / 2 ≤ right := by
      have h2 := Int.ediv_le_ediv (by norm_num : (0 : Int) < 2)
        (by omega : left + right ≤ 2 * right)
      rwa [Int.mul_ediv_cancel_left right (by norm_num)] at h2
    omega

/-- Translation of `findFunctionByLineNumber` (xmlLineIndexer): search the
whole index. -/
def findFunctionByLineNumber (functionIndex : List FnEntry)
    (lineNumber : Nat) : Option FnEntry :=
  findFunctionLoop functionIndex lineNumber 0
    ((functionIndex.length : Int) - 1)

/-- A tag occurrence starts at offset `i` of the line. -/
def hasTagAt (l : List Char) (i : Nat) : Bool :=
  (tryMatchAt (l.drop i)).isSome

/-- How many offsets of the text start a tag occurrence. -/
def occCount (l : List Char) : Nat :=
  ((List.range l.length).filter (fun i => hasTagAt l i)).length

/-- The leftmost tag occurrence of a line, described independently of the
scan: the least offset where the pattern matches, with its capture. -/
def leftmostOcc (l : List Char) : Option (List Char × Nat) :=
  match (List.range l.length).find? (fun i => hasTagAt l i) with
  | some i => (tryMatchAt (l.drop i)).map (fun cap => (cap, i))
  | none => none

/-- Rewrite a text from LF to CRLF line endings. -/
def crlfOf : List Char → List Char
  | [] => []
  | c :: cs => if c = '\n' then '\r' :: '\n' :: crlfOf cs else c :: crlfOf cs

/-! ## Template engine (src/unnamed/part_002, templateExtractor)

The normalized entity types (`msf.types`) carry identifier pairs, sequence
numbers, domain fields, audit fields (verified, review, noteidlist) and, on
functions, the session/view-only fields. JavaScript numbers on domain fields
are modelled as rationals. The `generateMOXUUID` calls of instantiation are
modelled by a supply `g : Nat -> String` read at a threaded call counter, one
increment per call, in the source's evaluation order (object literals
evaluate field initializers top to bottom). -/

/-- Normalized specification entity. -/
structure MSFSpecificationNormalized where
  pui : String
  dui : String
  sequence : Nat
  calinterval : Rat
  Specialcal : String
  AssetNum : String
  spectype : String
  unitofmeasure : String
  unitsymbol : String
  fullscale : Rat
  iv_pct : Rat
  iv_pct_hi : Rat
  iv_ppm : Rat
  fs_pct : Rat
  fs_pct_hi : Rat
  fs_ppm : Rat
  floor : Rat
  floor_hi : Rat
  db : Rat
  dbtype : Rat
  calcdesc : String
  calcstring : String
  operand : String
deriving DecidableEq, Repr

/-- Normalized parameter entity. -/
structure MSFParameterNormalized where
  pui : String
  dui : String
  sequence : Nat
  lowerlimit : Rat
  upperlimit : Rat
  unitofmeasure : String
  unitsymbol : String
  isbipolar : Bool
  noteidlist : String
  paramname : String
  verified : Bool
  review : Bool
deriving DecidableEq, Repr

/-- Normalized range entity. -/
structure MSFRangeNormalized where
  pui : String
  dui : String
  sequence : Nat
  rangename : String
  rangeid : String
  properties : String
  autoassign : Bool
  noteidlist : String
  verified : Bool
  review : Bool
  parameter : MSFParameterNormalized
  specifications : List MSFSpecificationNormalized
deriving DecidableEq, Repr

/-- Normalized function entity, with the session/view-only fields. -/
structure MSFFunctionNormalized where
  pui : String
  dui : String
  sequence : Nat
  functionname : String
  modifier : Option String
  properties : String
  format : String
  isoutput : Bool
  noteidlist : String
  verified : Bool
  review : Bool
  ranges : List MSFRangeNormalized
  _uiExpanded : Bool
  _uiStatus : String
deriving DecidableEq, Repr

/-- Specification template: content fields only. -/
structure SpecificationTemplate where
  calinterval : Rat
  Specialcal : String
  AssetNum : String
  spectype : String
  unitofmeasure : String
  unitsymbol : String
  fullscale : Rat
  iv_pct : Rat
  iv_pct_hi : Rat
  iv_ppm : Rat
  fs_pct : Rat
  fs_pct_hi : Rat
  fs_ppm : Rat
  floor : Rat
  floor_hi : Rat
  db : Rat
  dbtype : Rat
  calcdesc : String
  calcstring : String
  operand : String
deriving DecidableEq, Repr

/-- Parameter template: content fields only. -/
structure ParameterTemplate where
  lowerlimit : Rat
  upperlimit : Rat
  unitofmeasure : String
  unitsymbol : String
  isbipolar : Bool
  paramname : String
deriving DecidableEq, Repr

/-- Range template: content fields, parameter and specifications. -/
structure RangeTemplate where
  rangename : String
  rangeid : String
  properties : String
  autoassign : Bool
  parameter : ParameterTemplate
  specifications : List SpecificationTemplate
deriving DecidableEq, Repr

/-- Function template: content fields and ranges, no identity, no audit. -/
structure FunctionTemplate where
  functionname : String
  modifier : Option String
  properties : String
  format : String
  isoutput : Bool
  ranges : List RangeTemplate
deriving DecidableEq, Repr

/-- Translation of `extractSpecificationTemplate`. -/
def extractSpecificationTemplate (spec : MSFSpecificationNormalized) :
    SpecificationTemplate :=
  { calinterval := spec.calinterval,
    Specialcal := spec.Specialcal,
    AssetNum := spec.AssetNum,
    spectype := spec.spectype,
    unitofmeasure := spec.unitofmeasure,
    unitsymbol := spec.unitsymbol,
    fullscale := spec.fullscale,
    iv_pct := spec.iv_pct,
    iv_pct_hi := spec.iv_pct_hi,
    iv_ppm := spec.iv_ppm,
    fs_pct := spec.fs_pct,
    fs_pct_hi := spec.fs_pct_hi,
    fs_ppm := spec.fs_ppm,
    floor := spec.floor,
    floor_hi := spec.floor_hi,
    db := spec.db,
    dbtype := spec.dbtype,
    calcdesc := spec.calcdesc,
    calcstring := spec.calcstring,
    operand := spec.operand }

/-- Translation of `extractParameterTemplate`. -/
def extractParameterTemplate (param : MSFParameterNormalized) :
    ParameterTemplate :=
  { lowerlimit := param.lowerlimit,
    upperlimit := param.upperlimit,
    unitofmeasure := param.unitofmeasure,
    unitsymbol := param.unitsymbol,
    isbipolar := param.isbipolar,
    paramname := param.paramname }

/-- Translation of `extractRangeTemplate`. -/
def extractRangeTemplate (range : MSFRangeNormalized) : RangeTemplate :=
  { rangename := range.rangename,
    rangeid := range.rangeid,
    properties := range.properties,
    autoassign := range.autoassign,
    parameter := extractParameterTemplate range.parameter,
    specifications := range.specifications.map extractSpecificationTemplate }

/-- Translation of `extractFunctionTemplate` (templateExtractor). -/
def extractFunctionTemplate (func : MSFFunctionNormalized) :
    FunctionTemplate :=
  { functionname := func.functionname,
    modifier := func.modifier,
    properties := func.properties,
    format := func.format,
    isoutput := func.isoutput,
    ranges := func.ranges.map extractRangeTemplate }

/-- Translation of `createSpecificationFromTemplate`: two generator calls
(pui then dui), content copied from the template. -/
def createSpecificationFromTemplate (g : Nat → String)
    (template : SpecificationTemplate) (sequence : Nat) (c : Nat) :
    MSFSpecificationNormalized × Nat :=
  ({ pui := g c,
     dui := g (c + 1),
     sequence,
     calinterval := template.calinterval,
     Specialcal := template.Specialcal,
     AssetNum := template.AssetNum,
     spectype := template.spectype,
     unitofmeasure := template.unitofmeasure,
     unitsymbol := template.unitsymbol,
     fullscale := template.fullscale,
     iv_pct := template.iv_pct,
     iv_pct_hi := template.iv_pct_hi,
     iv_ppm := template.iv_ppm,
     fs_pct := template.fs_pct,
     fs_pct_hi := template.fs_pct_hi,
     fs_ppm := template.fs_ppm,
     floor := template.floor,
     floor_hi := template.floor_hi,
     db := template.db,
     dbtype := template.dbtype,
     calcdesc := template.calcdesc,
     calcstring := template.calcstring,
     operand := template.operand }, c + 2)

/-- The `specifications.map((t, idx) => ...)` of range creation, with the
generator counter threaded left to right. -/
def createSpecificationsFromTemplates (g : Nat → String) :
    List SpecificationTemplate → Nat → Nat →
      List MSFSpecificationNormalized × Nat
  | [], _, c => ([], c)
  | t :: ts, i, c =>
      let sc := createSpecificationFromTemplate g t i c
      let rest := createSpecificationsFromTemplates g ts (i + 1) sc.2
      (sc.1 :: rest.1, rest.2)

/-- Translation of `createParameterFromTemplate`: two generator calls,
sequence fixed at zero, default audit fields. -/
def createParameterFromTemplate (g : Nat → String)
    (template : ParameterTemplate) (c : Nat) :
    MSFParameterNormalized × Nat :=
  ({ pui := g c,
     dui := g (c + 1),
     sequence := 0,
     lowerlimit := template.lowerlimit,
     upperlimit := template.upperlimit,
     unitofmeasure := template.unitofmeasure,
     unitsymbol := template.unitsymbol,
     isbipolar := template.isbipolar,
     noteidlist := "",
     paramname := template.paramname,
     verified := false,
     review := false }, c + 2)

/-- Translation of `createRangeFromTemplate`: generator calls in the
object-literal order pui, dui, parameter, specifications. -/
def createRangeFromTemplate (g : Nat → String) (template : RangeTemplate)
    (sequence : Nat) (c : Nat) : MSFRangeNormalized × Nat :=
  let pc := createParameterFromTemplate g template.parameter (c + 2)
  let sc := createSpecificationsFromTemplates g template.specifications 0
    pc.2
  ({ pui := g c,
     dui := g (c + 1),
     sequence,
     rangename := template.rangename,
     rangeid := template.rangeid,
     properties := template.properties,
     autoassign := template.autoassign,
     noteidlist := "",
     verified := false,
     review := false,
     parameter := pc.1,
     specifications := sc.1 }, sc.2)

/-- The `ranges.map((t, idx) => ...)` of function creation. -/
def createRangesFromTemplates (g : Nat → String) :
    List RangeTemplate → Nat → Nat → List MSFRangeNormalized × Nat
  | [], _, c => ([], c)
  | t :: ts, i, c =>
      let rc := createRangeFromTemplate g t i c
      let rest := createRangesFromTemplates g ts (i + 1) rc.2
      (rc.1 :: rest.1, rest.2)

/-- Translation of `createFunctionFromTemplate` (templateExtractor):
fresh identifiers at every level, the given sequence at the top, dense
0-based sequence numbers for descendants, default audit and view state. -/
def createFunctionFromTemplate (g : Nat → String)
    (template : FunctionTemplate) (sequence : Nat) (c : Nat) :
    MSFFunctionNormalized × Nat :=
  let rc := createRangesFromTemplates g template.ranges 0 (c + 2)
  ({ pui := g c,
     dui := g (c + 1),
     sequence,
     functionname := template.functionname,
     modifier := template.modifier,
     properties := template.properties,
     format := template.format,
     isoutput := template.isoutput,
     noteidlist := "",
     verified := false,
     review := false,
     ranges := rc.1,
     _uiExpanded := false,
     _uiStatus := "unreviewed" }, rc.2)

/-- Both identifiers of a specification. -/
def specIds (s : MSFSpecificationNormalized) : List String := [s.pui, s.dui]

/-- Both identifiers of a parameter. -/
def paramIds (p : MSFParameterNormalized) : List String := [p.pui, p.dui]

/-- All identifiers of a range: its own pair, the parameter pair and every
specification pair. -/
def rangeIds (r : MSFRangeNormalized) : List String :=
  r.pui :: r.dui :: (paramIds r.parameter ++ r.specifications.bind specIds)

/-- All identifiers of a function tree, every level included. -/
def funcIds (f : MSFFunctionNormalized) : List String :=
  f.pui :: f.dui :: f.ranges.bind rangeIds

/-- Specifications agreeing on every content field. -/
def specDomainEq (s t : MSFSpecificationNormalized) : Prop :=
  s.calinterval = t.calinterval ∧
  s.Specialcal = t.Specialcal ∧
  s.AssetNum = t.AssetNum ∧
  s.spectype = t.spectype ∧
  s.unitofmeasure = t.unitofmeasure ∧
  s.unitsymbol = t.unitsymbol ∧
  s.fullscale = t.fullscale ∧
  s.iv_pct = t.iv_pct ∧
  s.iv_pct_hi = t.iv_pct_hi ∧
  s.iv_ppm = t.iv_ppm ∧
  s.fs_pct = t.fs_pct ∧
  s.fs_pct_hi = t.fs_pct_hi ∧
  s.fs_ppm = t.fs_ppm ∧
  s.floor = t.floor ∧
  s.floor_hi = t.floor_hi ∧
  s.db = t.db ∧
  s.dbtype = t.dbtype ∧
  s.calcdesc = t.calcdesc ∧
  s.calcstring = t.calcstring ∧
  s.operand = t.operand

/-- Parameters agreeing on every content field. -/
def paramDomainEq (p q : MSFParameterNormalized) : Prop :=
  p.lowerlimit = q.lowerlimit ∧
  p.upperlimit = q.upperlimit ∧
  p.unitofmeasure = q.unitofmeasure ∧
  p.unitsymbol = q.unitsymbol ∧
  p.isbipolar = q.isbipolar ∧
  p.paramname = q.paramname

/-- Pointwise relation of two lists of equal length. -/
def listRel {α β : Type} (R : α → β → Prop) : List α → List β → Prop
  | [], [] => True
  | a :: as, b :: bs => R a b ∧ listRel R as bs
  | _, _ => False

/-- Ranges agreeing on every content field, recursively. -/
def rangeDomainEq (r q : MSFRangeNormalized) : Prop :=
  r.rangename = q.rangename ∧ r.rangeid = q.rangeid ∧
  r.properties = q.properties ∧ r.autoassign = q.autoassign ∧
  paramDomainEq r.parameter q.parameter ∧
  listRel specDomainEq r.specifications q.specifications

/-- Functions agreeing on every domain/content field, recursively — the
identifier, audit and session/view-only fields at every level are free. -/
def funcDomainEq (f h : MSFFunctionNormalized) : Prop :=
  f.functionname = h.functionname ∧ f.modifier = h.modifier ∧
  f.properties = h.properties ∧ f.format = h.format ∧
  f.isoutput = h.isoutput ∧ listRel rangeDomainEq f.ranges h.ranges

/-- The template copies every content field of the specification. -/
def specTemplateMatches (t : SpecificationTemplate)
    (s : MSFSpecificationNormalized) : Prop :=
  t.calinterval = s.calinterval ∧
  t.Specialcal = s.Specialcal ∧
  t.AssetNum = s.AssetNum ∧
  t.spectype = s.spectype ∧
  t.unitofmeasure = s.unitofmeasure ∧
  t.unitsymbol = s.unitsymbol ∧
  t.fullscale = s.fullscale ∧
  t.iv_pct = s.iv_pct ∧
  t.iv_pct_hi = s.iv_pct_hi ∧
  t.iv_ppm = s.iv_ppm ∧
  t.fs_pct = s.fs_pct ∧
  t.fs_pct_hi = s.fs_pct_hi ∧
  t.fs_ppm = s.fs_ppm ∧
  t.floor = s.floor ∧
  t.floor_hi = s.floor_hi ∧
  t.db = s.db ∧
  t.dbtype = s.dbtype ∧
  t.calcdesc = s.calcdesc ∧
  t.calcstring = s.calcstring ∧
  t.operand = s.operand

/-- The template copies every content field of the parameter. -/
def paramTemplateMatches (t : ParameterTemplate)
    (p : MSFParameterNormalized) : Prop :=
  t.lowerlimit = p.lowerlimit ∧
  t.upperlimit = p.upperlimit ∧
  t.unitofmeasure = p.unitofmeasure ∧
  t.unitsymbol = p.unitsymbol ∧
  t.isbipolar = p.isbipolar ∧
  t.paramname = p.paramname

/-- The template copies every content field of the range, recursively. -/
def rangeTemplateMatches (t : RangeTemplate) (r : MSFRangeNormalized) :
    Prop :=
  t.rangename = r.rangename ∧ t.rangeid = r.rangeid ∧
  t.properties = r.properties ∧ t.autoassign = r.autoassign ∧
  paramTemplateMatches t.parameter r.parameter ∧
  listRel specTemplateMatches t.specifications r.specifications

/-- The template copies every domain/content field of the function,
recursively, and nothing else is reachable from it: a function template
has no identifier, audit or view fields to expose. -/
def funcTemplateMatches (t : FunctionTemplate)
    (f : MSFFunctionNormalized) : Prop :=
  t.functionname = f.functionname ∧ t.modifier = f.modifier ∧
  t.properties = f.properties ∧ t.format = f.format ∧
  t.isoutput = f.isoutput ∧ listRel rangeTemplateMatches t.ranges f.ranges

/-- Pointwise list relations with decidable components are decidable. -/
instance listRelDec {α β : Type} (R : α → β → Prop)
    [∀ (a : α) (b : β), Decidable (R a b)] :
    ∀ (l1 : List α) (l2 : List β), Decidable (listRel R l1 l2)
  | [], [] => isTrue trivial
  | [], _ :: _ => isFalse fun h => h
  | _ :: _, [] => isFalse fun h => h
  | _ :: as, _ :: bs =>
      @instDecidableAnd _ _ _ (listRelDec R as bs)

/-- Content agreement of specifications is decidable. -/
instance specDomainEqDec : DecidableRel specDomainEq := fun s t => by
  unfold specDomainEq
  infer_instance

/-- Content agreement of parameters is decidable. -/
instance paramDomainEqDec : DecidableRel paramDomainEq := fun p q => by
  unfold paramDomainEq
  infer_instance

/-- Content agreement of ranges is decidable. -/
instance rangeDomainEqDec : DecidableRel rangeDomainEq := fun r q => by
  unfold rangeDomainEq
  infer_instance

/-- Content agreement of functions is decidable. -/
instance funcDomainEqDec : DecidableRel funcDomainEq := fun f h => by
  unfold funcDomainEq
  infer_instance

/-! ## Parser and serializer

Modelled from the spec: the sources `msfParser.ts` and `msfSerializer.ts`
are not under src/ — only their tests are — so `parseMSFXML`,
`serializeMSFToXML` and `extractAllUUIDs` are modelled from §4.2/§4.3 of the
specification and the shapes its tests exercise. The wire format is an XML
element tree (`XNode`); well-formedness of the raw text is the tree's
existence. The document model carries the full §3 hierarchy — Instrument,
Header, Function list, Range list, Parameter, Specification list — with,
at each entity, the identifier pair, the sequence number and representative
domain/audit fields of each kind the normalization rules distinguish: a
boolean sentinel field, the designated optional `modifier` text field, and
plain text fields. The remaining fields of the full schema repeat these
shapes. Numbers on the wire are decimal text. -/

/-- An XML node: an element with named children, or character data. -/
inductive XNode where
  | elem (name : String) (children : List XNode)
  | text (s : String)

/-- The character data of an element's child list: an empty element and an
explicit open/close pair around text both read back as strings (the empty
pair as the empty string). -/
def contentOf : List XNode → Option String
  | [] => some ""
  | [XNode.text s] => some s
  | _ => none

/-- The text content of the first child element with the given name. -/
def fieldText (n : String) : List XNode → Option String
  | [] => none
  | XNode.elem m ts :: rest => if m = n then contentOf ts else fieldText n rest
  | XNode.text _ :: rest => fieldText n rest

/-- Whether a node is an element with the given name. -/
def isElemNamed (n : String) : XNode → Bool
  | XNode.elem m _ => m = n
  | XNode.text _ => false

/-- All child elements with the given name, in source order — the
cardinality normalization: one occurrence or many, always a list. -/
def elemsNamed (n : String) (cs : List XNode) : List XNode :=
  cs.filter (isElemNamed n)

/-- A text element: always an explicit open/close pair, never self-closing,
also for the empty string. -/
def txtEl (n s : String) : XNode := XNode.elem n [XNode.text s]

/-- Decimal digit to character. -/
def digitToChar (d : Nat) : Char :=
  match d with
  | 0 => '0'
  | 1 => '1'
  | 2 => '2'
  | 3 => '3'
  | 4 => '4'
  | 5 => '5'
  | 6 => '6'
  | 7 => '7'
  | 8 => '8'
  | _ => '9'

/-- Character to decimal digit. -/
def charToDigit? (c : Char) : Option Nat :=
  if c = '0' then some 0
  else if c = '1' then some 1
  else if c = '2' then some 2
  else if c = '3' then some 3
  else if c = '4' then some 4
  else if c = '5' then some 5
  else if c = '6' then some 6
  else if c = '7' then some 7
  else if c = '8' then some 8
  else if c = '9' then some 9
  else none

/-- Decimal print of a natural number, most significant digit first. -/
def natToChars (n : Nat) : List Char :=
  if h : n < 10 then [digitToChar n]
  else natToChars (n / 10) ++ [digitToChar (n % 10)]
termination_by n
decreasing_by
  omega

/-- Decimal read of a natural number: all digits, at least one. -/
def charsToNat? (cs : List Char) : Option Nat :=
  if cs ≠ [] ∧ cs.all (fun c => (charToDigit? c).isSome) then
    some (cs.foldl (fun a c => 10 * a + (charToDigit? c).getD 0) 0)
  else none

/-- The boolean sentinel decoding: the literal "-1" is true, any other
literal is false. -/
def decodeMOXBool (s : String) : Bool := s = "-1"

/-- The boolean sentinel encoding: true to "-1", false to "0", nothing
else is emitted. -/
def encodeMOXBool (b : Bool) : String := if b then "-1" else "0"

/-- Specification entity of the document model. -/
structure DocSpecification where
  pui : String
  dui : String
  sequence : Nat
  spectype : String
deriving DecidableEq, Repr

/-- Parameter entity of the document model. -/
structure DocParameter where
  pui : String
  dui : String
  sequence : Nat
  unitofmeasure : String
  isbipolar : Bool
deriving DecidableEq, Repr

/-- Range entity of the document model: a singular parameter section and a
repeatable specification section. -/
structure DocRange where
  pui : String
  dui : String
  sequence : Nat
  rangename : String
  parameter : DocParameter
  specifications : List DocSpecification
deriving DecidableEq, Repr

/-- Function entity of the document model, carrying the designated optional
`modifier` field (explicitly absent versus empty) and sentinel booleans. -/
structure DocFunction where
  pui : String
  dui : String
  sequence : Nat
  functionname : String
  modifier : Option String
  isoutput : Bool
  verified : Bool
  ranges : List DocRange
deriving DecidableEq, Repr

/-- Header entity of the document model. -/
structure DocHeader where
  pui : String
  dui : String
  model : String
  manufacturer : String
deriving DecidableEq, Repr

/-- Root entity of the document model. -/
structure DocInstrument where
  pui : String
  dui : String
  verified : Bool
  header : DocHeader
  functions : List DocFunction
deriving DecidableEq, Repr

/-- Option to parse result: a missing required part is a format error. -/
def req {α : Type} (o : Option α) (msg : String) : Except String α :=
  match o with
  | some a => Except.ok a
  | none => Except.error msg

/-- Parse one specification element. -/
def parseMOXSpecification (x : XNode) : Except String DocSpecification :=
  match x with
  | XNode.elem name cs =>
      if name = ("specification") then do
        let pui ← req (fieldText ("pui") cs) ("missing pui")
        let dui ← req (fieldText ("dui") cs) ("missing dui")
        let seqText ← req (fieldText ("sequence") cs) ("missing sequence")
        let sequence ← req (charsToNat? seqText.data) ("bad sequence")
        let spectype ← req (fieldText ("spectype") cs) ("missing spectype")
        Except.ok { pui := pui, dui := dui, sequence := sequence,
                    spectype := spectype }
      else Except.error ("expected specification")
  | XNode.text _ => Except.error ("expected specification")

/-- Parse one parameter element, decoding the boolean sentinel. -/
def parseMOXParameter (x : XNode) : Except String DocParameter :=
  match x with
  | XNode.elem name cs =>
      if name = ("parameter") then do
        let pui ← req (fieldText ("pui") cs) ("missing pui")
        let dui ← req (fieldText ("dui") cs) ("missing dui")
        let seqText ← req (fieldText ("sequence") cs) ("missing sequence")
        let sequence ← req (charsToNat? seqText.data) ("bad sequence")
        let unitofmeasure ← req (fieldText ("unitofmeasure") cs)
          ("missing unitofmeasure")
        let bipText ← req (fieldText ("isbipolar") cs) ("missing isbipolar")
        Except.ok { pui := pui, dui := dui, sequence := sequence,
                    unitofmeasure := unitofmeasure,
                    isbipolar := decodeMOXBool bipText }
      else Except.error ("expected parameter")
  | XNode.text _ => Except.error ("expected parameter")

/-- Parse one range element: scalar fields, the singular parameter, and the
specification children normalized into a list. -/
def parseMOXRange (x : XNode) : Except String DocRange :=
  match x with
  | XNode.elem name cs =>
      if name = ("range") then do
        let pui ← req (fieldText ("pui") cs) ("missing pui")
        let dui ← req (fieldText ("dui") cs) ("missing dui")
        let seqText ← req (fieldText ("sequence") cs) ("missing sequence")
        let sequence ← req (charsToNat? seqText.data) ("bad sequence")
        let rangename ← req (fieldText ("rangename") cs)
          ("missing rangename")
        let pnode ← req (elemsNamed ("parameter") cs).head?
          ("missing parameter")
        let parameter ← parseMOXParameter pnode
        let specifications ← (elemsNamed ("specification") cs).mapM
          parseMOXSpecification
        Except.ok { pui := pui, dui := dui, sequence := sequence,
                    rangename := rangename, parameter := parameter,
                    specifications := specifications }
      else Except.error ("expected range")
  | XNode.text _ => Except.error ("expected range")

/-- Parse one function element: the empty `modifier` string normalizes to
the explicit absent value (the per-field absence rule); range children
normalize into a list. -/
def parseMOXFunction (x : XNode) : Except String DocFunction :=
  match x with
  | XNode.elem name cs =>
      if name = ("function") then do
        let pui ← req (fieldText ("pui") cs) ("missing pui")
        let dui ← req (fieldText ("dui") cs) ("missing dui")
        let seqText ← req (fieldText ("sequence") cs) ("missing sequence")
        let sequence ← req (charsToNat? seqText.data) ("bad sequence")
        let functionname ← req (fieldText ("functionname") cs)
          ("missing functionname")
        let modRaw ← req (fieldText ("modifier") cs) ("missing modifier")
        let outText ← req (fieldText ("isoutput") cs) ("missing isoutput")
        let verText ← req (fieldText ("verified") cs) ("missing verified")
        let ranges ← (elemsNamed ("range") cs).mapM parseMOXRange
        Except.ok { pui := pui, dui := dui, sequence := sequence,
                    functionname := functionname,
                    modifier := if modRaw = "" then none else some modRaw,
                    isoutput := decodeMOXBool outText,
                    verified := decodeMOXBool verText, ranges := ranges }
      else Except.error ("expected function")
  | XNode.text _ => Except.error ("expected function")

/-- Parse the header element. -/
def parseMOXHeader (x : XNode) : Except String DocHeader :=
  match x with
  | XNode.elem name cs =>
      if name = ("header") then do
        let pui ← req (fieldText ("pui") cs) ("missing pui")
        let dui ← req (fieldText ("dui") cs) ("missing dui")
        let model ← req (fieldText ("model") cs) ("missing model")
        let manufacturer ← req (fieldText ("manufacturer") cs)
          ("missing manufacturer")
        Except.ok { pui := pui, dui := dui, model := model,
                    manufacturer := manufacturer }
      else Except.error ("expected header")
  | XNode.text _ => Except.error ("expected header")

/-- Parse an MSF document: the root element must be named `instrument`, or
the parse fails with a format error and no partial tree. -/
def parseMSFXML (x : XNode) : Except String DocInstrument :=
  match x with
  | XNode.elem name cs =>
      if name = ("instrument") then do
        let pui ← req (fieldText ("pui") cs) ("missing pui")
        let dui ← req (fieldText ("dui") cs) ("missing dui")
        let verText ← req (fieldText ("verified") cs) ("missing verified")
        let hnode ← req (elemsNamed ("header") cs).head? ("missing header")
        let header ← parseMOXHeader hnode
        let functions ← (elemsNamed ("function") cs).mapM parseMOXFunction
        Except.ok { pui := pui, dui := dui,
                    verified := decodeMOXBool verText, header := header,
                    functions := functions }
      else Except.error ("missing instrument root")
  | XNode.text _ => Except.error ("not an element")

/-- Serialize one specification in canonical field order, `pui` before
`dui`. -/
def serializeMOXSpecification (s : DocSpecification) : XNode :=
  XNode.elem ("specification")
    [txtEl ("pui") s.pui,
     txtEl ("dui") s.dui,
     txtEl ("sequence") (String.mk (natToChars s.sequence)),
     txtEl ("spectype") s.spectype]

/-- Serialize one parameter, encoding the boolean sentinel. -/
def serializeMOXParameter (p : DocParameter) : XNode :=
  XNode.elem ("parameter")
    [txtEl ("pui") p.pui,
     txtEl ("dui") p.dui,
     txtEl ("sequence") (String.mk (natToChars p.sequence)),
     txtEl ("unitofmeasure") p.unitofmeasure,
     txtEl ("isbipolar") (encodeMOXBool p.isbipolar)]

/-- Serialize one range: scalar fields first, then the singular parameter
section, then the repeated specification siblings in list order. -/
def serializeMOXRange (r : DocRange) : XNode :=
  XNode.elem ("range")
    ([txtEl ("pui") r.pui,
      txtEl ("dui") r.dui,
      txtEl ("sequence") (String.mk (natToChars r.sequence)),
      txtEl ("rangename") r.rangename,
      serializeMOXParameter r.parameter] ++
     r.specifications.map serializeMOXSpecification)

/-- Serialize one function: the absent modifier collapses to the empty
open/close pair, by design one-way lossy. -/
def serializeMOXFunction (f : DocFunction) : XNode :=
  XNode.elem ("function")
    ([txtEl ("pui") f.pui,
      txtEl ("dui") f.dui,
      txtEl ("sequence") (String.mk (natToChars f.sequence)),
      txtEl ("functionname") f.functionname,
      txtEl ("modifier") (match f.modifier with
        | none => ""
        | some m => m),
      txtEl ("isoutput") (encodeMOXBool f.isoutput),
      txtEl ("verified") (encodeMOXBool f.verified)] ++
     f.ranges.map serializeMOXRange)

/-- Serialize the header. -/
def serializeMOXHeader (h : DocHeader) : XNode :=
  XNode.elem ("header")
    [txtEl ("pui") h.pui,
     txtEl ("dui") h.dui,
     txtEl ("model") h.model,
     txtEl ("manufacturer") h.manufacturer]

/-- Serialize a document: the singular header section precedes the repeated
function siblings. -/
def serializeMSFToXML (t : DocInstrument) : XNode :=
  XNode.elem ("instrument")
    ([txtEl ("pui") t.pui,
      txtEl ("dui") t.dui,
      txtEl ("verified") (encodeMOXBool t.verified),
      serializeMOXHeader t.header] ++
     t.functions.map serializeMOXFunction)

/-- The document-order identifier traversal: every primary and secondary
identifier at every level, duplicates preserved. -/
def extractAllUUIDs (t : DocInstrument) : List String :=
  t.pui :: t.dui :: t.header.pui :: t.header.dui ::
    t.functions.bind (fun f =>
      f.pui :: f.dui :: f.ranges.bind (fun r =>
        r.pui :: r.dui :: r.parameter.pui :: r.parameter.dui ::
          r.specifications.bind (fun s => [s.pui, s.dui])))

/-- The normalized trees the parser can produce: the designated optional
field never holds the explicit empty string, which parsing maps to the
absent value. -/
def DocInstrumentWF (t : DocInstrument) : Prop :=
  ∀ f ∈ t.functions, f.modifier ≠ some ""

/-! ## Theorems: identifier service -/

/-- Consuming one expected character succeeds exactly on that character. -/
theorem expectChar_eq_some {c : Char} {cs r : List Char} :
    expectChar c cs = some r ↔ cs = c :: r := by
  cases cs with
  | nil => simp [expectChar]
  | cons d cs' =>
      by_cases hdc : d = c
      · subst hdc; simp [expectChar]
      · simp [expectChar, hdc]

/-- A hex-class run of length `n` succeeds exactly on a prefix of `n`
uppercase hex characters. -/
theorem hexRun_eq_some {n : Nat} {cs r : List Char} :
    hexRun n cs = some r ↔
      ∃ g, g.length = n ∧ (∀ c ∈ g, isHexUpper c = true) ∧ cs = g ++ r := by
  induction n generalizing cs with
  | zero =>
      constructor
      · intro h
        exact ⟨[], rfl, by simp, by simpa [hexRun] using h⟩
      · rintro ⟨g, hg, -, rfl⟩
        rw [List.length_eq_zero] at hg
        subst hg
        simp [hexRun]
  | succ n ih =>
      cases cs with
      | nil =>
          constructor
          · intro h; cases h
          · rintro ⟨g, hg, -, hcs⟩
            have := congrArg List.length hcs
            simp at this
            omega
      | cons c cs' =>
          by_cases hc : isHexUpper c = true
          · rw [show hexRun (n + 1) (c :: cs') = hexRun n cs' by
              simp [hexRun, hc], ih]
            constructor
            · rintro ⟨g, hg, hall, rfl⟩
              refine ⟨c :: g, by simp [hg], ?_, by simp⟩
              intro x hx
              rcases List.mem_cons.1 hx with rfl | hx
              · exact hc
              · exact hall x hx
            · rintro ⟨g, hg, hall, hcs⟩
              cases g with
              | nil => simp at hg
              | cons d g' =>
                  rcases List.cons_eq_cons.1 hcs with ⟨rfl, rfl⟩
                  exact ⟨g', by simpa using hg,
                    fun x hx => hall x (List.mem_cons_of_mem _ hx), rfl⟩
          · rw [show hexRun (n + 1) (c :: cs') = none by simp [hexRun, hc]]
            constructor
            · intro h; cases h
            · rintro ⟨g, hg, hall, hcs⟩
              cases g with
              | nil => simp at hg
              | cons d g' =>
                  rcases List.cons_eq_cons.1 hcs with ⟨rfl, -⟩
                  exact absurd (hall c (List.mem_cons_self _ _)) hc

/-- A run of characters of the class evaluates deterministically on an
explicit prefix. -/
theorem hexRun_append {n : Nat} {g r : List Char} (hg : g.length = n)
    (hall : ∀ c ∈ g, isHexUpper c = true) :
    hexRun n (g ++ r) = some r :=
  hexRun_eq_some.2 ⟨g, hg, hall, rfl⟩

/-- Consuming an expected character at the head succeeds. -/
theorem expectChar_cons_self (c : Char) (cs : List Char) :
    expectChar c (c :: cs) = some cs :=
  expectChar_eq_some.2 rfl

/-- The validity matcher accepts exactly the brace-delimited uppercase
8-4-4-4-12 grammar. -/
theorem isValidMOXUUID_iff_grammar (s : String) :
    isValidMOXUUID s = true ↔ MOXGrammar s := by
  constructor
  · intro h
    rw [isValidMOXUUID, decide_eq_true_eq] at h
    simp only [Option.bind_eq_bind, Option.bind_eq_some, expectChar_eq_some,
      hexRun_eq_some, Option.pure_def, Option.some.injEq] at h
    obtain ⟨r1, h1, r2, ⟨g1, hl1, ha1, rfl⟩, r3, rfl, r4, ⟨g2, hl2, ha2, rfl⟩,
      r5, rfl, r6, ⟨g3, hl3, ha3, rfl⟩, r7, rfl, r8, ⟨g4, hl4, ha4, rfl⟩,
      r9, rfl, r10, ⟨g5, hl5, ha5, rfl⟩, r11, h11, rfl⟩ := h
    refine ⟨g1, g2, g3, g4, g5, hl1, hl2, hl3, hl4, hl5, ?_, ?_⟩
    · intro c hc
      simp only [List.append_assoc, List.mem_append] at hc
      rcases hc with hc | hc | hc | hc | hc
      · exact ha1 c hc
      · exact ha2 c hc
      · exact ha3 c hc
      · exact ha4 c hc
      · exact ha5 c hc
    · rw [h1, h11]
  · rintro ⟨g1, g2, g3, g4, g5, hl1, hl2, hl3, hl4, hl5, hall, hs⟩
    have ha1 : ∀ c ∈ g1, isHexUpper c = true := fun c hc =>
      hall c (by simp [hc])
    have ha2 : ∀ c ∈ g2, isHexUpper c = true := fun c hc =>
      hall c (by simp [hc])
    have ha3 : ∀ c ∈ g3, isHexUpper c = true := fun c hc =>
      hall c (by simp [hc])
    have ha4 : ∀ c ∈ g4, isHexUpper c = true := fun c hc =>
      hall c (by simp [hc])
    have ha5 : ∀ c ∈ g5, isHexUpper c = true := fun c hc =>
      hall c (by simp [hc])
    rw [isValidMOXUUID, decide_eq_true_eq, hs]
    simp only [Option.bind_eq_bind, Option.some_bind, expectChar_cons_self,
      hexRun_append hl1 ha1, hexRun_append hl2 ha2, hexRun_append hl3 ha3,
      hexRun_append hl4 ha4, hexRun_append hl5 ha5]
    simp [expectChar]

/-- Uppercasing is the identity on the hyphen. -/
theorem toUpper_hyphen : Char.toUpper '-' = '-' := by decide

/-- Uppercasing maps the lowercase hex class into the uppercase hex class. -/
theorem isHexUpper_toUpper {c : Char} (hc : isHexLower c = true) :
    isHexUpper (Char.toUpper c) = true := by
  simp only [isHexLower, Bool.or_eq_true, decide_eq_true_eq] at hc
  rcases hc with
    (((((((((((((((rfl | rfl) | rfl) | rfl) | rfl) | rfl) | rfl) | rfl) |
      rfl) | rfl) | rfl) | rfl) | rfl) | rfl) | rfl) | rfl) <;> decide

/-- Claim C4: every string returned by `generateMOXUUID` satisfies
`isValidMOXUUID`, and `isValidMOXUUID` accepts exactly the brace-delimited
uppercase 8-4-4-4-12 hex grammar, so every deviation (missing braces,
lowercase hex, wrong group lengths) is rejected. -/
theorem moxUUID_generate_valid_and_grammar_exact :
    (∀ r, randomUUIDCanonical r →
      isValidMOXUUID (generateMOXUUID r) = true) ∧
    (∀ s, isValidMOXUUID s = true ↔ MOXGrammar s) := by
  refine ⟨?_, isValidMOXUUID_iff_grammar⟩
  rintro r ⟨g1, g2, g3, g4, g5, hl1, hl2, hl3, hl4, hl5, hall, hr⟩
  refine (isValidMOXUUID_iff_grammar _).2
    ⟨g1.map Char.toUpper, g2.map Char.toUpper, g3.map Char.toUpper,
     g4.map Char.toUpper, g5.map Char.toUpper, by simp [hl1], by simp [hl2],
     by simp [hl3], by simp [hl4], by simp [hl5], ?_, ?_⟩
  · intro c hc
    rw [← List.map_append, ← List.map_append, ← List.map_append,
      ← List.map_append, List.mem_map] at hc
    obtain ⟨d, hd, rfl⟩ := hc
    exact isHexUpper_toUpper (hall d hd)
  · show (String.mk (lbrace :: r.data.map Char.toUpper ++ [rbrace])).data = _
    rw [show (String.mk (lbrace :: r.data.map Char.toUpper ++ [rbrace])).data
      = lbrace :: r.data.map Char.toUpper ++ [rbrace] from rfl, hr]
    simp [toUpper_hyphen]

/-- Witness for C4: a concrete canonical lowercase platform UUID is accepted
after generation, and the same token with its braces missing is rejected. -/
theorem moxUUID_generate_valid_and_grammar_exact_witness :
    isValidMOXUUID
      (generateMOXUUID ("12345678-9abc-def0-1234-56789abcdef0")) = true ∧
    isValidMOXUUID ("12345678-9ABC-DEF0-1234-56789ABCDEF0") = false :=
  ⟨moxUUID_generate_valid_and_grammar_exact.1 _
    ⟨"12345678".data, "9abc".data, "def0".data, "1234".data,
     "56789abcdef0".data, by decide, by decide, by decide, by decide,
     by decide, by decide, by decide⟩,
   by decide⟩

/-! ## Theorems: page-mapping index -/

/-- Claim C7: `setPageMapping` called with a page number below one or with an
empty identifier raises nothing and leaves the whole store unchanged. -/
theorem setPageMapping_invalid_noop (s : PageStore) (functionPUI : String)
    (pageNumber : Int) (h : pageNumber < 1 ∨ functionPUI = "") :
    setPageMapping s functionPUI pageNumber = s := by
  rcases h with h | h
  · simp [setPageMapping, h]
  · subst h
    by_cases hp : pageNumber < 1 <;> simp [setPageMapping, hp]

/-- Witness for C7: a zero page number is rejected on the empty store. -/
theorem setPageMapping_invalid_noop_witness :
    setPageMapping emptyStore ("f1") 0 = emptyStore :=
  setPageMapping_invalid_noop emptyStore ("f1") 0 (Or.inl (by decide))

/-- Claim C8: the first function always estimates to page 1, and for a fixed
function count of at least one (total page count known or not) the estimate
is monotone in the sequence index and never drops below page 1. -/
theorem estimatePageNumber_first_monotone_positive :
    ∀ (sequence totalFunctions : Nat) (totalPages : Option Nat),
      estimatePageNumber 0 totalFunctions totalPages = 1 ∧
      (1 ≤ totalFunctions →
        estimatePageNumber sequence totalFunctions totalPages ≤
          estimatePageNumber (sequence + 1) totalFunctions totalPages) ∧
      (1 ≤ totalFunctions →
        1 ≤ estimatePageNumber sequence totalFunctions totalPages) := by
  intro sequence totalFunctions totalPages
  have hge : ∀ (sq : Nat), 1 ≤ estimatePageNumber sq totalFunctions
      totalPages := by
    intro sq
    by_cases hs : sq = 0
    · simp [estimatePageNumber, hs]
    · rcases totalPages with _ | t
      · simp only [estimatePageNumber, if_neg hs]
        omega
      · by_cases ht : t = 0
        · simp [estimatePageNumber, hs, ht]
        · simp only [estimatePageNumber, if_neg hs, if_pos ht]
          exact le_max_left 1 _
  refine ⟨by simp [estimatePageNumber], ?_, fun _ => hge sequence⟩
  intro _
  by_cases hs : sequence = 0
  · subst hs
    exact le_trans (by simp [estimatePageNumber]) (hge 1)
  · rcases totalPages with _ | t
    · simp only [estimatePageNumber, if_neg hs, if_neg (by omega :
        ¬sequence + 1 = 0)]
      omega
    · by_cases ht : t = 0
      · simp [estimatePageNumber, if_neg hs, ht]
      · simp only [estimatePageNumber, if_neg hs, if_neg (by omega :
          ¬sequence + 1 = 0), if_pos ht]
        refine max_le_max (le_refl 1) ?_
        have hmul : sequence * (t / totalFunctions) ≤
            (sequence + 1) * (t / totalFunctions) :=
          Nat.mul_le_mul_right _ (by omega)
        omega

/-- Witness for C8: concrete estimates for a five-function document with a
twenty page total. -/
theorem estimatePageNumber_first_monotone_positive_witness :
    estimatePageNumber 0 5 (some 20) = 1 ∧
    estimatePageNumber 2 5 (some 20) ≤ estimatePageNumber 3 5 (some 20) ∧
    1 ≤ estimatePageNumber 2 5 (some 20) :=
  ⟨(estimatePageNumber_first_monotone_positive 0 5 (some 20)).1,
   (estimatePageNumber_first_monotone_positive 2 5 (some 20)).2.1
     (by decide),
   (estimatePageNumber_first_monotone_positive 2 5 (some 20)).2.2
     (by decide)⟩

/-- One `setPageMapping` step, seen through the lookup function: a valid
entry for the queried key shadows the accumulator, anything else leaves it. -/
theorem setPageMapping_lookup (acc : PageStore) (e : PageMapping)
    (k : String) :
    (setPageMapping acc e.functionPUI e.pageNumber) k =
      (if validMapping e = true ∧ e.functionPUI = k then some e.pageNumber
       else none).or (acc k) := by
  unfold setPageMapping validMapping mapSet
  by_cases h1 : e.pageNumber < 1
  · rw [if_pos h1]
    have h1' : ¬(1 ≤ e.pageNumber) := by omega
    simp [h1']
  · rw [if_neg h1]
    have h1' : 1 ≤ e.pageNumber := by omega
    by_cases h2 : e.functionPUI = ""
    · rw [if_pos h2]
      simp [h2]
    · rw [if_neg h2]
      by_cases h3 : k = e.functionPUI
      · simp [h3, h1', h2]
      · have h3' : ¬(e.functionPUI = k) := fun h => h3 h.symm
        simp [h3, h3']

/-- The effective contents of the payload seen so far, one entry deeper. -/
theorem lastValidPage_cons (e : PageMapping) (ms : List PageMapping)
    (k : String) :
    lastValidPage (e :: ms) k =
      (lastValidPage ms k).or
        (if validMapping e = true ∧ e.functionPUI = k then some e.pageNumber
         else none) := by
  unfold lastValidPage
  by_cases hv : validMapping e = true
  · rw [List.filter_cons_of_pos hv]
    rw [List.reverse_cons, List.find?_append]
    rcases hrest : ((ms.filter validMapping).reverse.find?
        (fun x => x.functionPUI = k)) with _ | w
    · by_cases hk : e.functionPUI = k
      · simp [hrest, List.find?, hk, hv]
      · simp [hrest, List.find?, hk, hv]
    · simp [hrest]
  · rw [List.filter_cons_of_neg hv]
    simp [hv]

/-- Folding the payload through `setPageMapping` computes, at each key, the
last valid payload entry, falling back to the starting store. -/
theorem setPage_foldl_lookup :
    ∀ (mappings : List PageMapping) (acc : PageStore) (k : String),
      (mappings.foldl
        (fun a e => setPageMapping a e.functionPUI e.pageNumber) acc) k =
      (lastValidPage mappings k).or (acc k) := by
  intro mappings
  induction mappings with
  | nil =>
      intro acc k
      simp [lastValidPage]
  | cons e ms ih =>
      intro acc k
      rw [List.foldl_cons, ih, lastValidPage_cons, Option.or_assoc]
      congr 1
      exact setPageMapping_lookup acc e k

/-- Claim C9: `loadPageMappings` replaces the whole store; afterwards each
key maps to exactly what the validated payload says for it (the last valid
payload entry for that key), and every mapping not re-established by the
payload is gone, whatever the store held before. -/
theorem loadPageMappings_replaces_store :
    ∀ (mappings : List PageMapping) (s : PageStore) (k : String),
      loadPageMappings mappings s k = lastValidPage mappings k := by
  intro mappings s k
  unfold loadPageMappings clearAllPageMappings
  rw [setPage_foldl_lookup]
  simp [emptyStore]

/-- The empty store holds no page below one. -/
theorem storeValid_empty : StoreValid emptyStore := by
  intro k p h
  exact absurd h (by simp [emptyStore])

/-- `setPageMapping` preserves the page-number lower bound. -/
theorem storeValid_set (s : PageStore) (functionPUI : String)
    (pageNumber : Int) (hs : StoreValid s) :
    StoreValid (setPageMapping s functionPUI pageNumber) := by
  intro k q hk
  unfold setPageMapping mapSet at hk
  by_cases h1 : pageNumber < 1
  · rw [if_pos h1] at hk
    exact hs k q hk
  · rw [if_neg h1] at hk
    by_cases h2 : functionPUI = ""
    · rw [if_pos h2] at hk
      exact hs k q hk
    · rw [if_neg h2] at hk
      by_cases h3 : k = functionPUI
      · subst h3
        rw [if_pos rfl] at hk
        injection hk with hk
        omega
      · simp only [if_neg h3] at hk
        exact hs k q hk

/-- `removePageMapping` preserves the page-number lower bound. -/
theorem storeValid_remove (s : PageStore) (functionPUI : String)
    (hs : StoreValid s) : StoreValid (removePageMapping s functionPUI) := by
  intro k q hk
  unfold removePageMapping at hk
  by_cases h3 : k = functionPUI
  · simp [h3] at hk
  · simp only [if_neg h3] at hk
    exact hs k q hk

/-- Folding a payload through `setPageMapping` preserves the lower bound. -/
theorem storeValid_foldl (mappings : List PageMapping) :
    ∀ (acc : PageStore), StoreValid acc →
      StoreValid (mappings.foldl
        (fun a e => setPageMapping a e.functionPUI e.pageNumber) acc) := by
  induction mappings with
  | nil => exact fun acc h => h
  | cons e ms ih =>
      intro acc h
      rw [List.foldl_cons]
      exact ih _ (storeValid_set acc e.functionPUI e.pageNumber h)

/-- Claim C10: every operation of the page-mapping service preserves the
invariant that stored page numbers are at least one, and under that
invariant `getPageMapping` returns exactly the stored value (or null for a
missing key) — the falsy-value masking in `get(k) || null` can never fire. -/
theorem pageStore_invariant_get_exact :
    StoreValid emptyStore ∧
    (∀ s functionPUI pageNumber, StoreValid s →
      StoreValid (setPageMapping s functionPUI pageNumber)) ∧
    (∀ s functionPUI, StoreValid s →
      StoreValid (removePageMapping s functionPUI)) ∧
    (∀ s, StoreValid (clearAllPageMappings s)) ∧
    (∀ mappings s, StoreValid (loadPageMappings mappings s)) ∧
    (∀ s k, StoreValid s → getPageMapping s k = s k) := by
  refine ⟨storeValid_empty, storeValid_set, storeValid_remove,
    fun s => storeValid_empty, ?_, ?_⟩
  · intro mappings s
    exact storeValid_foldl mappings _ storeValid_empty
  · intro s k hs
    rcases h : s k with _ | p
    · simp [getPageMapping, h]
    · have hp := hs k p h
      simp [getPageMapping, h, show ¬p = 0 by omega]

/-- Witness for C10: storing page 3 keeps the invariant and reads back as
exactly page 3. -/
theorem pageStore_invariant_get_exact_witness :
    StoreValid (setPageMapping emptyStore ("f1") 3) ∧
    getPageMapping (setPageMapping emptyStore ("f1") 3) ("f1") =
      setPageMapping emptyStore ("f1") 3 ("f1") := by
  have h1 : StoreValid (setPageMapping emptyStore ("f1") 3) :=
    pageStore_invariant_get_exact.2.1 emptyStore ("f1") 3
      pageStore_invariant_get_exact.1
  exact ⟨h1, pageStore_invariant_get_exact.2.2.2.2.2 _ ("f1") h1⟩

/-! ## Theorems: line indexer -/

/-- Entries emitted from line `n` onward carry line numbers at least `n`. -/
theorem extractGo_le_lineNumber :
    ∀ (ls : List (List Char)) (n : Nat) (e : FnEntry),
      e ∈ extractFunctionLineNumbersGo ls n → n ≤ e.lineNumber := by
  intro ls
  induction ls with
  | nil =>
      intro n e he
      simp [extractFunctionLineNumbersGo] at he
  | cons l ls ih =>
      intro n e he
      rcases hm : lineMatch (stripCR l) 0 with _ | ⟨cap, i⟩
      · rw [extractFunctionLineNumbersGo, hm] at he
        have := ih (n + 1) e he
        omega
      · rw [extractFunctionLineNumbersGo, hm] at he
        rcases List.mem_cons.1 he with rfl | he'
        · exact le_refl n
        · have := ih (n + 1) e he'
          omega

/-- The index is built in strictly increasing line-number order: the scan
advances the line counter every iteration and pushes at most one entry per
line. -/
theorem extractGo_pairwise :
    ∀ (ls : List (List Char)) (n : Nat),
      List.Pairwise (fun a b : FnEntry => a.lineNumber < b.lineNumber)
        (extractFunctionLineNumbersGo ls n) := by
  intro ls
  induction ls with
  | nil =>
      intro n
      simp [extractFunctionLineNumbersGo]
  | cons l ls ih =>
      intro n
      rcases hm : lineMatch (stripCR l) 0 with _ | ⟨cap, i⟩
      · rw [extractFunctionLineNumbersGo, hm]
        exact ih (n + 1)
      · rw [extractFunctionLineNumbersGo, hm]
        refine List.Pairwise.cons ?_ (ih (n + 1))
        intro b hb
        have := extractGo_le_lineNumber ls (n + 1) b hb
        simpa using by omega

/-- In a strictly sorted index, earlier entries have smaller line numbers. -/
theorem sorted_get_lt (idx : List FnEntry)
    (hs : List.Pairwise (fun a b : FnEntry => a.lineNumber < b.lineNumber)
      idx)
    {i j : Nat} {a b : FnEntry} (ha : idx.get? i = some a)
    (hb : idx.get? j = some b) (hij : i < j) :
    a.lineNumber < b.lineNumber := by
  rw [List.get?_eq_some] at ha hb
  obtain ⟨hi, rfl⟩ := ha
  obtain ⟨hj, rfl⟩ := hb
  exact List.pairwise_iff_get.1 hs ⟨i, hi⟩ ⟨j, hj⟩ hij

/-- In a strictly sorted index, an entry is determined by its line number. -/
theorem sorted_line_unique {idx : List FnEntry}
    (hs : List.Pairwise (fun a b : FnEntry => a.lineNumber < b.lineNumber)
      idx)
    {a b : FnEntry} (ha : a ∈ idx) (hb : b ∈ idx)
    (hab : a.lineNumber = b.lineNumber) : a = b := by
  obtain ⟨i, hi⟩ := List.mem_iff_get?.1 ha
  obtain ⟨j, hj⟩ := List.mem_iff_get?.1 hb
  rcases Nat.lt_trichotomy i j with hc | hc | hc
  · have := sorted_get_lt idx hs hi hj hc
    omega
  · subst hc
    rw [hi] at hj
    injection hj
  · have := sorted_get_lt idx hs hj hi hc
    omega

/-- Whatever the search loop returns lies in the index and has the queried
line number. -/
theorem findLoop_sound (functionIndex : List FnEntry) (lineNumber : Nat)
    (left right : Int) :
    ∀ e, findFunctionLoop functionIndex lineNumber left right = some e →
      e ∈ functionIndex ∧ e.lineNumber = lineNumber := by
  induction left, right using findFunctionLoop.induct functionIndex
    lineNumber with
  | case1 left right h hget =>
      intro e he
      rw [findFunctionLoop] at he
      simp only [dif_pos h, hget] at he
      exact Option.noConfusion he
  | case2 left right h current hget hline =>
      intro e he
      rw [findFunctionLoop] at he
      simp only [dif_pos h, hget, if_pos hline] at he
      injection he with he
      subst he
      exact ⟨List.get?_mem hget, hline⟩
  | case3 left right h current hget hne hlt ih =>
      intro e he
      rw [findFunctionLoop] at he
      simp only [dif_pos h, hget, if_neg hne, if_pos hlt] at he
      exact ih e he
  | case4 left right h current hget hne hnlt ih =>
      intro e he
      rw [findFunctionLoop] at he
      simp only [dif_pos h, hget, if_neg hne, if_neg hnlt] at he
      exact ih e he
  | case5 left right h =>
      intro e he
      rw [findFunctionLoop] at he
      simp only [dif_neg h] at he
      exact Option.noConfusion he

/-- When no index entry has the queried line number, the loop returns null. -/
theorem findLoop_none (functionIndex : List FnEntry) (lineNumber : Nat)
    (hnone : ∀ e ∈ functionIndex, e.lineNumber ≠ lineNumber)
    (left right : Int) :
    findFunctionLoop functionIndex lineNumber left right = none := by
  induction left, right using findFunctionLoop.induct functionIndex
    lineNumber with
  | case1 left right h hget =>
      rw [findFunctionLoop]
      simp only [dif_pos h, hget]
  | case2 left right h current hget hline =>
      exact absurd hline (hnone current (List.get?_mem hget))
  | case3 left right h current hget hne hlt ih =>
      rw [findFunctionLoop]
      simp only [dif_pos h, hget, if_neg hne, if_pos hlt]
      exact ih
  | case4 left right h current hget hne hnlt ih =>
      rw [findFunctionLoop]
      simp only [dif_pos h, hget, if_neg hne, if_neg hnlt]
      exact ih
  | case5 left right h =>
      rw [findFunctionLoop]
      simp [dif_neg h]

/-- If a matching entry sits inside the current window of a strictly sorted
index, the loop finds an entry with the queried line number. -/
theorem findLoop_complete (functionIndex : List FnEntry) (lineNumber : Nat)
    (hsorted : List.Pairwise
      (fun a b : FnEntry => a.lineNumber < b.lineNumber) functionIndex)
    (left right : Int) :
    ∀ (j : Nat) (e : FnEntry), 0 ≤ left →
      right < (functionIndex.length : Int) →
      functionIndex.get? j = some e → e.lineNumber = lineNumber →
      left ≤ (j : Int) → (j : Int) ≤ right →
      ∃ e', findFunctionLoop functionIndex lineNumber left right = some e' ∧
        e' ∈ functionIndex ∧ e'.lineNumber = lineNumber := by
  induction left, right using findFunctionLoop.induct functionIndex
    lineNumber with
  | case1 left right h hget =>
      intro j e hl hr hj hline hlj hjr
      exfalso
      rw [List.get?_eq_none] at hget
      omega
  | case2 left right h current hget hline' =>
      intro j e hl hr hj hline hlj hjr
      refine ⟨current, ?_, List.get?_mem hget, hline'⟩
      rw [findFunctionLoop]
      simp only [dif_pos h, hget, if_pos hline']
  | case3 left right h current hget hne hlt ih =>
      intro j e hl hr hj hline hlj hjr
      have h0 : (0 : Int) ≤ (left + right) / 2 := by omega
      have hcast : ((((left + right) / 2).toNat : Int)) = (left + right) / 2 :=
        by omega
      rcases Nat.lt_trichotomy j (((left + right) / 2).toNat) with hc | hc | hc
      · exfalso
        have := sorted_get_lt functionIndex hsorted hj hget hc
        omega
      · exfalso
        rw [← hc, hj] at hget
        injection hget with hget
        rw [hget] at hline
        exact hne hline
      · obtain ⟨e', he', hmem', hline''⟩ :=
          ih j e (by omega) hr hj hline (by omega) hjr
        refine ⟨e', ?_, hmem', hline''⟩
        rw [findFunctionLoop]
        simp only [dif_pos h, hget, if_neg hne, if_pos hlt]
        exact he'
  | case4 left right h current hget hne hnlt ih =>
      intro j e hl hr hj hline hlj hjr
      have h0 : (0 : Int) ≤ (left + right) / 2 := by omega
      have hcast : ((((left + right) / 2).toNat : Int)) = (left + right) / 2 :=
        by omega
      rcases Nat.lt_trichotomy (((left + right) / 2).toNat) j with hc | hc | hc
      · exfalso
        have := sorted_get_lt functionIndex hsorted hget hj hc
        omega
      · exfalso
        rw [hc, hj] at hget
        injection hget with hget
        rw [hget] at hline
        exact hne hline
      · obtain ⟨e', he', hmem', hline''⟩ :=
          ih j e hl (by omega) hj hline hlj (by omega)
        refine ⟨e', ?_, hmem', hline''⟩
        rw [findFunctionLoop]
        simp only [dif_pos h, hget, if_neg hne, if_neg hnlt]
        exact he'
  | case5 left right h =>
      intro j e hl hr hj hline hlj hjr
      exfalso
      omega

/-- Claim C2: the index built by `extractFunctionLineNumbers` has strictly
increasing line numbers, and `findFunctionByLineNumber` returns the entry
with the queried line number exactly when one exists and null otherwise. -/
theorem lineIndex_sorted_and_binarySearch_correct (xmlString : String)
    (lineNumber : Nat) :
    List.Pairwise (fun a b : FnEntry => a.lineNumber < b.lineNumber)
      (extractFunctionLineNumbers xmlString) ∧
    (∀ e ∈ extractFunctionLineNumbers xmlString,
      e.lineNumber = lineNumber →
      findFunctionByLineNumber (extractFunctionLineNumbers xmlString)
        lineNumber = some e) ∧
    ((∀ e ∈ extractFunctionLineNumbers xmlString,
        e.lineNumber ≠ lineNumber) →
      findFunctionByLineNumber (extractFunctionLineNumbers xmlString)
        lineNumber = none) := by
  have hs : List.Pairwise
      (fun a b : FnEntry => a.lineNumber < b.lineNumber)
      (extractFunctionLineNumbers xmlString) :=
    extractGo_pairwise _ 1
  refine ⟨hs, ?_, ?_⟩
  · intro e he hline
    obtain ⟨j, hj⟩ := List.mem_iff_get?.1 he
    have hjlen : j < (extractFunctionLineNumbers xmlString).length := by
      rw [List.get?_eq_some] at hj
      exact hj.1
    obtain ⟨e', he', hmem', hline'⟩ :=
      findLoop_complete (extractFunctionLineNumbers xmlString) lineNumber hs
        0 (((extractFunctionLineNumbers xmlString).length : Int) - 1) j e
        (by omega) (by omega) hj hline (by omega) (by omega)
    rw [findFunctionByLineNumber, he']
    have : e' = e := sorted_line_unique hs hmem' he (by rw [hline', hline])
    rw [this]
  · intro hnone
    rw [findFunctionByLineNumber]
    exact findLoop_none (extractFunctionLineNumbers xmlString) lineNumber
      hnone 0 _

/-- Witness for C2: on a one-line document the tagged line is found and an
untagged line is null. -/
theorem lineIndex_sorted_and_binarySearch_correct_witness :
    findFunctionByLineNumber
      (extractFunctionLineNumbers ("<functionname>A</functionname>")) 1 =
      some ⟨("A"), 1, 0⟩ ∧
    findFunctionByLineNumber
      (extractFunctionLineNumbers ("<functionname>A</functionname>")) 2 =
      none :=
  ⟨(lineIndex_sorted_and_binarySearch_correct _ 1).2.1 ⟨("A"), 1, 0⟩
     (by decide) rfl,
   (lineIndex_sorted_and_binarySearch_correct _ 2).2.2 (by decide)⟩

/-- The leftmost occurrence of a line with a match at position zero. -/
theorem leftmostOcc_cons_some {c : Char} {rest cap : List Char}
    (hm : tryMatchAt (c :: rest) = some cap) :
    leftmostOcc (c :: rest) = some (cap, 0) := by
  unfold leftmostOcc
  rw [show (c :: rest).length = rest.length + 1 from rfl,
    List.range_succ_eq_map]
  rw [List.find?_cons_of_pos _ (by simp [hasTagAt, hm])]
  simp [hm]

/-- The leftmost occurrence of a line with no match at position zero is the
leftmost occurrence of its tail, shifted right by one. -/
theorem leftmostOcc_cons_none {c : Char} {rest : List Char}
    (hm : tryMatchAt (c :: rest) = none) :
    leftmostOcc (c :: rest) =
      (leftmostOcc rest).map (fun q => (q.1, q.2 + 1)) := by
  unfold leftmostOcc
  rw [show (c :: rest).length = rest.length + 1 from rfl,
    List.range_succ_eq_map]
  rw [List.find?_cons_of_neg _ (by simp [hasTagAt, hm])]
  rw [List.find?_map]
  have hp : (fun i => hasTagAt (c :: rest) i) ∘ Nat.succ =
      fun i => hasTagAt rest i := by
    funext j
    rfl
  rw [hp]
  rcases hf : List.find? (fun i => hasTagAt rest i) (List.range rest.length)
      with _ | j
  · rfl
  · rcases ht : tryMatchAt (rest.drop j) with _ | cap
    · simp [show (c :: rest).drop (Nat.succ j) = rest.drop j from rfl, ht]
    · simp [show (c :: rest).drop (Nat.succ j) = rest.drop j from rfl, ht]

/-- `line.match(regex)` computes the leftmost occurrence: the scan of
`lineMatch` agrees with the 'least offset with a match' description. -/
theorem lineMatch_eq_leftmostOcc :
    ∀ (l : List Char) (i : Nat),
      lineMatch l i = (leftmostOcc l).map (fun q => (q.1, q.2 + i)) := by
  intro l
  induction l with
  | nil =>
      intro i
      simp [lineMatch, leftmostOcc]
  | cons c rest ih =>
      intro i
      rcases hm : tryMatchAt (c :: rest) with _ | cap
      · rw [lineMatch, hm, ih (i + 1), leftmostOcc_cons_none hm]
        rcases leftmostOcc rest with _ | ⟨cap, j⟩
        · rfl
        · simp
          omega
      · rw [lineMatch, hm, leftmostOcc_cons_some hm]
        simp

/-- The scan loop, characterized line by line: one entry per enumerated line
holding a leftmost occurrence. -/
theorem extractGo_eq_enumFrom :
    ∀ (ls : List (List Char)) (n : Nat),
      extractFunctionLineNumbersGo ls n =
        (List.enumFrom n ls).filterMap (fun p =>
          (leftmostOcc (stripCR p.2)).map (fun q =>
            (⟨String.mk (trimChars q.1), p.1, q.2⟩ : FnEntry))) := by
  intro ls
  induction ls with
  | nil =>
      intro n
      simp [extractFunctionLineNumbersGo]
  | cons l ls ih =>
      intro n
      have hl := lineMatch_eq_leftmostOcc (stripCR l) 0
      rw [List.enumFrom_cons, List.filterMap_cons]
      rcases hlm : leftmostOcc (stripCR l) with _ | ⟨cap, j⟩
      · rw [hlm] at hl
        rw [extractFunctionLineNumbersGo, show lineMatch (stripCR l) 0 = none
          from hl, ih (n + 1)]
        rfl
      · rw [hlm] at hl
        rw [extractFunctionLineNumbersGo, show lineMatch (stripCR l) 0 =
          some (cap, j + 0) from hl, ih (n + 1)]
        simp

/-- Rewriting line endings distributes over concatenation. -/
theorem crlfOf_append :
    ∀ (a b : List Char), crlfOf (a ++ b) = crlfOf a ++ crlfOf b := by
  intro a b
  induction a with
  | nil => rfl
  | cons c a ih =>
      by_cases hc : c = '\n' <;> simp [crlfOf, hc, ih]

/-- Rewriting line endings does not touch a newline-free segment. -/
theorem crlfOf_no_newline :
    ∀ (l : List Char), '\n' ∉ l → crlfOf l = l := by
  intro l
  induction l with
  | nil => intro _; rfl
  | cons c a ih =>
      intro h
      have hc : ¬c = '\n' := fun hcc => h (by simp [hcc])
      simp only [crlfOf, if_neg hc]
      rw [ih (fun hm => h (List.mem_cons_of_mem _ hm))]

/-- Stripping the trailing carriage return of a line that has none. -/
theorem stripCR_no_cr {l : List Char} (h : '\r' ∉ l) : stripCR l = l := by
  unfold stripCR
  rcases hg : l.getLast? with _ | c
  · simp
  · have hc : ¬c = '\r' := fun hcc =>
      h (hcc ▸ List.mem_of_mem_getLast? hg)
    simp [hc]

/-- Stripping the trailing carriage return the CRLF rewrite added. -/
theorem stripCR_concat (l : List Char) : stripCR (l ++ ['\r']) = l := by
  unfold stripCR
  rw [List.getLast?_concat, if_pos rfl, List.dropLast_concat]

/-- A newline-free text is one line. -/
theorem msfLinesGo_no_newline :
    ∀ (l acc : List Char), '\n' ∉ l →
      msfLinesGo acc l = [acc.reverse ++ l] := by
  intro l
  induction l with
  | nil =>
      intro acc _
      simp [msfLinesGo]
  | cons c rest ih =>
      intro acc h
      have hc : ¬c = '\n' := fun hcc => h (by simp [hcc])
      rw [msfLinesGo.eq_def]
      simp only [if_neg hc]
      rw [ih (c :: acc) (fun hm => h (List.mem_cons_of_mem _ hm))]
      simp

/-- A final newline closes the text without opening a new line. -/
theorem msfLinesGo_last_newline :
    ∀ (l acc : List Char), '\n' ∉ l →
      msfLinesGo acc (l ++ ['\n']) = [acc.reverse ++ l] := by
  intro l
  induction l with
  | nil =>
      intro acc _
      simp [msfLinesGo]
  | cons c rest ih =>
      intro acc h
      have hc : ¬c = '\n' := fun hcc => h (by simp [hcc])
      rw [List.cons_append, msfLinesGo.eq_def]
      simp only [if_neg hc]
      rw [ih (c :: acc) (fun hm => h (List.mem_cons_of_mem _ hm))]
      simp

/-- An inner newline closes the current line and the scan continues. -/
theorem msfLinesGo_split :
    ∀ (l acc rest : List Char), '\n' ∉ l → rest ≠ [] →
      msfLinesGo acc (l ++ '\n' :: rest) =
        (acc.reverse ++ l) :: msfLinesGo [] rest := by
  intro l
  induction l with
  | nil =>
      intro acc rest _ hrest
      rcases rest with _ | ⟨r, rs⟩
      · exact absurd rfl hrest
      · simp [msfLinesGo]
  | cons c l' ih =>
      intro acc rest h hrest
      have hc : ¬c = '\n' := fun hcc => h (by simp [hcc])
      rw [List.cons_append, msfLinesGo.eq_def]
      simp only [if_neg hc]
      rw [ih (c :: acc) rest (fun hm => h (List.mem_cons_of_mem _ hm)) hrest]
      simp

/-- Any text containing a newline splits at its first newline. -/
theorem split_at_newline :
    ∀ (cs : List Char), '\n' ∈ cs →
      ∃ l rest, cs = l ++ '\n' :: rest ∧ '\n' ∉ l := by
  intro cs
  induction cs with
  | nil =>
      intro h
      simp at h
  | cons c rest ih =>
      intro h
      by_cases hc : c = '\n'
      · exact ⟨[], rest, by rw [hc]; rfl, by simp⟩
      · have : '\n' ∈ rest := by
          rcases List.mem_cons.1 h with hch | hm
          · exact absurd hch.symm hc
          · exact hm
        obtain ⟨l, r, rfl, hl⟩ := ih this
        exact ⟨c :: l, r, rfl, by
          intro hm
          rcases List.mem_cons.1 hm with hch | hm'
          · exact hc hch.symm
          · exact hl hm'⟩

/-- A non-empty text enters the scanning loop. -/
theorem msfLines_ne_nil {cs : List Char} (h : cs ≠ []) :
    msfLines cs = msfLinesGo [] cs := by
  rcases cs with _ | ⟨c, rest⟩
  · exact absurd rfl h
  · rfl

/-- A line without a match contributes no entry. -/
theorem extractGo_cons_none {x : List Char} {ls : List (List Char)} {n : Nat}
    (hm : lineMatch (stripCR x) 0 = none) :
    extractFunctionLineNumbersGo (x :: ls) n =
      extractFunctionLineNumbersGo ls (n + 1) := by
  rw [extractFunctionLineNumbersGo, hm]

/-- A line with a match contributes exactly one entry. -/
theorem extractGo_cons_some {x cap : List Char} {ls : List (List Char)}
    {n i : Nat} (hm : lineMatch (stripCR x) 0 = some (cap, i)) :
    extractFunctionLineNumbersGo (x :: ls) n =
      ⟨String.mk (trimChars cap), n, i⟩ ::
        extractFunctionLineNumbersGo ls (n + 1) := by
  rw [extractFunctionLineNumbersGo, hm]

/-- On carriage-return-free text, rewriting LF endings to CRLF leaves the
extracted index unchanged: the added carriage returns are exactly what the
loop strips again. -/
theorem extract_crlf_eq :
    ∀ (N : Nat) (cs : List Char), cs.length ≤ N → '\r' ∉ cs → ∀ n,
      extractFunctionLineNumbersGo (msfLines (crlfOf cs)) n =
        extractFunctionLineNumbersGo (msfLines cs) n := by
  intro N
  induction N with
  | zero =>
      intro cs hlen hr n
      have hnil : cs = [] := List.length_eq_zero.1 (Nat.le_zero.1 hlen)
      subst hnil
      rfl
  | succ N ih =>
      intro cs hlen hr n
      by_cases hn : '\n' ∈ cs
      · obtain ⟨l, rest, rfl, hl⟩ := split_at_newline cs hn
        have hrl : '\r' ∉ l := fun hm => hr (by simp [hm])
        have hrrest : '\r' ∉ rest := fun hm => hr (by simp [hm])
        have hstrip : stripCR l = l := stripCR_no_cr hrl
        have hlr : '\n' ∉ l ++ ['\r'] := by
          intro hm
          rcases List.mem_append.1 hm with hm | hm
          · exact hl hm
          · simp at hm
        rw [crlfOf_append, crlfOf_no_newline l hl,
          show crlfOf ('\n' :: rest) = '\r' :: '\n' :: crlfOf rest from by
            simp [crlfOf]]
        by_cases hrestnil : rest = []
        · subst hrestnil
          rw [show l ++ '\r' :: '\n' :: crlfOf [] = (l ++ ['\r']) ++ ['\n']
            from by simp [crlfOf]]
          rw [msfLines_ne_nil (by simp), msfLinesGo_last_newline _ _ hlr]
          rw [msfLines_ne_nil (by simp : l ++ '\n' :: [] ≠ []),
            msfLinesGo_last_newline _ _ hl]
          rcases hm : lineMatch l 0 with _ | ⟨cap, i⟩
          · rw [extractGo_cons_none (by
                simp only [List.reverse_nil, List.nil_append]
                rw [stripCR_concat]
                exact hm),
              extractGo_cons_none (by
                simp only [List.reverse_nil, List.nil_append]
                rw [hstrip]
                exact hm)]
          · rw [extractGo_cons_some (by
                simp only [List.reverse_nil, List.nil_append]
                rw [stripCR_concat]
                exact hm),
              extractGo_cons_some (by
                simp only [List.reverse_nil, List.nil_append]
                rw [hstrip]
                exact hm)]
        · have hcrlf_ne : crlfOf rest ≠ [] := by
            rcases rest with _ | ⟨r, rs⟩
            · exact absurd rfl hrestnil
            · by_cases hrr : r = '\n' <;> simp [crlfOf, hrr]
          rw [show l ++ '\r' :: '\n' :: crlfOf rest =
            (l ++ ['\r']) ++ '\n' :: crlfOf rest from by simp]
          rw [msfLines_ne_nil (by simp),
            msfLinesGo_split _ _ _ hlr hcrlf_ne]
          rw [msfLines_ne_nil (by simp : l ++ '\n' :: rest ≠ []),
            msfLinesGo_split _ _ _ hl hrestnil]
          rw [← msfLines_ne_nil hcrlf_ne, ← msfLines_ne_nil hrestnil]
          have hrestlen : rest.length ≤ N := by
            have := hlen
            simp [List.length_append] at this
            omega
          have hih := ih rest hrestlen hrrest (n + 1)
          rcases hm : lineMatch l 0 with _ | ⟨cap, i⟩
          · rw [extractGo_cons_none (by
                simp only [List.reverse_nil, List.nil_append]
                rw [stripCR_concat]
                exact hm),
              extractGo_cons_none (by
                simp only [List.reverse_nil, List.nil_append]
                rw [hstrip]
                exact hm), hih]
          · rw [extractGo_cons_some (by
                simp only [List.reverse_nil, List.nil_append]
                rw [stripCR_concat]
                exact hm),
              extractGo_cons_some (by
                simp only [List.reverse_nil, List.nil_append]
                rw [hstrip]
                exact hm), hih]
      · rw [crlfOf_no_newline cs hn]

/-- Counterexample to C3 as stated: a line holding two tag occurrences
yields one index entry, not two — `line.match` without the global flag
reports only the first occurrence of each line. -/
theorem lineIndexer_misses_second_occurrence_on_line :
    occCount
      ("<functionname>A</functionname><functionname>B</functionname>").data
      = 2 ∧
    extractFunctionLineNumbers
      ("<functionname>A</functionname><functionname>B</functionname>") =
      [⟨("A"), 1, 0⟩] :=
  ⟨by decide, by decide⟩

/-- Claim C3 (amended): the index holds one entry per line that contains at
least one occurrence of the leaf tag — the leftmost occurrence of that line,
as (trimmed name, 1-based line number, character offset) — and LF and CRLF
texts index identically. -/
theorem lineIndexer_leftmost_per_line_and_crlf (xmlString : String) :
    extractFunctionLineNumbers xmlString =
      (List.enumFrom 1 (msfLines xmlString.data)).filterMap (fun p =>
        (leftmostOcc (stripCR p.2)).map (fun q =>
          (⟨String.mk (trimChars q.1), p.1, q.2⟩ : FnEntry))) ∧
    ('\r' ∉ xmlString.data →
      extractFunctionLineNumbers (String.mk (crlfOf xmlString.data)) =
        extractFunctionLineNumbers xmlString) :=
  ⟨extractGo_eq_enumFrom _ 1,
   fun hr => extract_crlf_eq xmlString.data.length xmlString.data
     (le_refl _) hr 1⟩

/-- Witness for the amended C3: a concrete two-line document indexes the
same under LF and CRLF endings. -/
theorem lineIndexer_leftmost_per_line_and_crlf_witness :
    extractFunctionLineNumbers
      (String.mk (crlfOf ("<functionname>A</functionname>\nx").data)) =
      extractFunctionLineNumbers ("<functionname>A</functionname>\nx") :=
  (lineIndexer_leftmost_per_line_and_crlf _).2 (by decide)

/-! ## Theorems: template engine -/

/-- Specification extraction depends only on content fields. -/
theorem specTemplate_eq_of_domainEq {s t : MSFSpecificationNormalized}
    (h : specDomainEq s t) :
    extractSpecificationTemplate s = extractSpecificationTemplate t := by
  obtain ⟨h1, h2, h3, h4, h5, h6, h7, h8, h9, h10, h11, h12, h13, h14, h15,
    h16, h17, h18, h19, h20⟩ := h
  simp [extractSpecificationTemplate, h1, h2, h3, h4, h5, h6, h7, h8, h9,
    h10, h11, h12, h13, h14, h15, h16, h17, h18, h19, h20]

/-- Parameter extraction depends only on content fields. -/
theorem paramTemplate_eq_of_domainEq {p q : MSFParameterNormalized}
    (h : paramDomainEq p q) :
    extractParameterTemplate p = extractParameterTemplate q := by
  obtain ⟨h1, h2, h3, h4, h5, h6⟩ := h
  simp [extractParameterTemplate, h1, h2, h3, h4, h5, h6]

/-- Specification-list extraction depends only on content fields. -/
theorem specTemplates_map_eq :
    ∀ {l1 l2 : List MSFSpecificationNormalized},
      listRel specDomainEq l1 l2 →
      l1.map extractSpecificationTemplate =
        l2.map extractSpecificationTemplate := by
  intro l1
  induction l1 with
  | nil =>
      intro l2 h
      cases l2 with
      | nil => rfl
      | cons b bs => exact h.elim
  | cons a as ih =>
      intro l2 h
      cases l2 with
      | nil => exact h.elim
      | cons b bs =>
          obtain ⟨h1, h2⟩ := h
          simp [specTemplate_eq_of_domainEq h1, ih h2]

/-- Range extraction depends only on content fields. -/
theorem rangeTemplate_eq_of_domainEq {r q : MSFRangeNormalized}
    (h : rangeDomainEq r q) :
    extractRangeTemplate r = extractRangeTemplate q := by
  obtain ⟨h1, h2, h3, h4, h5, h6⟩ := h
  simp [extractRangeTemplate, h1, h2, h3, h4,
    paramTemplate_eq_of_domainEq h5, specTemplates_map_eq h6]

/-- Range-list extraction depends only on content fields. -/
theorem rangeTemplates_map_eq :
    ∀ {l1 l2 : List MSFRangeNormalized},
      listRel rangeDomainEq l1 l2 →
      l1.map extractRangeTemplate = l2.map extractRangeTemplate := by
  intro l1
  induction l1 with
  | nil =>
      intro l2 h
      cases l2 with
      | nil => rfl
      | cons b bs => exact h.elim
  | cons a as ih =>
      intro l2 h
      cases l2 with
      | nil => exact h.elim
      | cons b bs =>
          obtain ⟨h1, h2⟩ := h
          simp [rangeTemplate_eq_of_domainEq h1, ih h2]

/-- Function extraction depends only on domain/content fields. -/
theorem funcTemplate_eq_of_domainEq {f h : MSFFunctionNormalized}
    (hd : funcDomainEq f h) :
    extractFunctionTemplate f = extractFunctionTemplate h := by
  obtain ⟨h1, h2, h3, h4, h5, h6⟩ := hd
  simp [extractFunctionTemplate, h1, h2, h3, h4, h5,
    rangeTemplates_map_eq h6]

/-- The extracted specification template copies every content field. -/
theorem extract_spec_matches (s : MSFSpecificationNormalized) :
    specTemplateMatches (extractSpecificationTemplate s) s := by
  simp [specTemplateMatches, extractSpecificationTemplate]

/-- The extracted parameter template copies every content field. -/
theorem extract_param_matches (p : MSFParameterNormalized) :
    paramTemplateMatches (extractParameterTemplate p) p := by
  simp [paramTemplateMatches, extractParameterTemplate]

/-- The extracted specification templates copy every content field. -/
theorem extract_specs_matches :
    ∀ (l : List MSFSpecificationNormalized),
      listRel specTemplateMatches (l.map extractSpecificationTemplate) l := by
  intro l
  induction l with
  | nil => exact trivial
  | cons a as ih => exact ⟨extract_spec_matches a, ih⟩

/-- The extracted range template copies every content field. -/
theorem extract_range_matches (r : MSFRangeNormalized) :
    rangeTemplateMatches (extractRangeTemplate r) r :=
  ⟨rfl, rfl, rfl, rfl, extract_param_matches _, extract_specs_matches _⟩

/-- The extracted range templates copy every content field. -/
theorem extract_ranges_matches :
    ∀ (l : List MSFRangeNormalized),
      listRel rangeTemplateMatches (l.map extractRangeTemplate) l := by
  intro l
  induction l with
  | nil => exact trivial
  | cons a as ih => exact ⟨extract_range_matches a, ih⟩

/-- Claim C6: the extracted template carries no identifier, audit or
session/view-only field at any level — extraction cannot distinguish two
functions differing only in those fields — while deep-copying every
domain/content field across the hierarchy. -/
theorem extractTemplate_strips_ids_audit (f1 f2 : MSFFunctionNormalized)
    (h : funcDomainEq f1 f2) :
    extractFunctionTemplate f1 = extractFunctionTemplate f2 ∧
    funcTemplateMatches (extractFunctionTemplate f1) f1 :=
  ⟨funcTemplate_eq_of_domainEq h,
   rfl, rfl, rfl, rfl, rfl, extract_ranges_matches _⟩

/-- Witness for C6: two functions differing only in identifiers, audit and
view state extract to the same template. -/
theorem extractTemplate_strips_ids_audit_witness :
    extractFunctionTemplate
      ⟨("P1"), ("D1"), 0, ("Voltage"), none, "", "", false, "", true, true,
        [], true, ("reviewed")⟩ =
    extractFunctionTemplate
      ⟨("P2"), ("D2"), 5, ("Voltage"), none, "", "", false, ("n1"), false,
        false, [], false, ("unreviewed")⟩ :=
  (extractTemplate_strips_ids_audit _ _ (by decide)).1

/-- A created specification consumes exactly the generator window
`[c, c + 2)` and draws both identifiers from it. -/
theorem createSpec_window (g : Nat → String) (t : SpecificationTemplate)
    (i c : Nat) :
    (createSpecificationFromTemplate g t i c).2 = c + 2 ∧
    ∀ id ∈ specIds (createSpecificationFromTemplate g t i c).1,
      ∃ j, c ≤ j ∧ j < c + 2 ∧ id = g j := by
  refine ⟨rfl, ?_⟩
  intro id hid
  simp only [specIds, createSpecificationFromTemplate, List.mem_cons,
    List.mem_singleton, List.not_mem_nil, or_false] at hid
  rcases hid with rfl | rfl
  · exact ⟨c, le_refl c, by omega, rfl⟩
  · exact ⟨c + 1, by omega, by omega, rfl⟩

/-- A created parameter consumes exactly the generator window `[c, c + 2)`
and draws both identifiers from it. -/
theorem createParam_window (g : Nat → String) (t : ParameterTemplate)
    (c : Nat) :
    (createParameterFromTemplate g t c).2 = c + 2 ∧
    ∀ id ∈ paramIds (createParameterFromTemplate g t c).1,
      ∃ j, c ≤ j ∧ j < c + 2 ∧ id = g j := by
  refine ⟨rfl, ?_⟩
  intro id hid
  simp only [paramIds, createParameterFromTemplate, List.mem_cons,
    List.mem_singleton, List.not_mem_nil, or_false] at hid
  rcases hid with rfl | rfl
  · exact ⟨c, le_refl c, by omega, rfl⟩
  · exact ⟨c + 1, by omega, by omega, rfl⟩

/-- Created specification lists only advance the counter and draw every
identifier from the consumed window. -/
theorem createSpecs_window (g : Nat → String) :
    ∀ (ts : List SpecificationTemplate) (i c : Nat),
      c ≤ (createSpecificationsFromTemplates g ts i c).2 ∧
      ∀ id ∈ (createSpecificationsFromTemplates g ts i c).1.bind specIds,
        ∃ j, c ≤ j ∧
          j < (createSpecificationsFromTemplates g ts i c).2 ∧ id = g j := by
  intro ts
  induction ts with
  | nil =>
      intro i c
      refine ⟨le_refl c, ?_⟩
      intro id hid
      simp [createSpecificationsFromTemplates] at hid
  | cons t ts ih =>
      intro i c
      obtain ⟨ihle, ihids⟩ := ih (i + 1) (c + 2)
      have hfst : (createSpecificationsFromTemplates g (t :: ts) i c).1 =
          (createSpecificationFromTemplate g t i c).1 ::
            (createSpecificationsFromTemplates g ts (i + 1) (c + 2)).1 := rfl
      have hsnd : (createSpecificationsFromTemplates g (t :: ts) i c).2 =
          (createSpecificationsFromTemplates g ts (i + 1) (c + 2)).2 := rfl
      rw [hfst, hsnd]
      constructor
      · omega
      · intro id hid
        rcases List.mem_append.1 (by simpa [List.cons_bind] using hid :
            id ∈ specIds (createSpecificationFromTemplate g t i c).1 ++
              (createSpecificationsFromTemplates g ts (i + 1)
                (c + 2)).1.bind specIds) with hid' | hid'
        · obtain ⟨j, hj1, hj2, hj3⟩ := (createSpec_window g t i c).2 id hid'
          exact ⟨j, hj1, by omega, hj3⟩
        · obtain ⟨j, hj1, hj2, hj3⟩ := ihids id hid'
          exact ⟨j, by omega, hj2, hj3⟩

/-- A created range only advances the counter and draws every identifier of
its tree from the consumed window. -/
theorem createRange_window (g : Nat → String) (t : RangeTemplate)
    (s c : Nat) :
    c ≤ (createRangeFromTemplate g t s c).2 ∧
    ∀ id ∈ rangeIds (createRangeFromTemplate g t s c).1,
      ∃ j, c ≤ j ∧ j < (createRangeFromTemplate g t s c).2 ∧ id = g j := by
  obtain ⟨hsle, hsids⟩ := createSpecs_window g t.specifications 0 (c + 4)
  have hids : rangeIds (createRangeFromTemplate g t s c).1 =
      g c :: g (c + 1) ::
        (paramIds (createParameterFromTemplate g t.parameter (c + 2)).1 ++
          (createSpecificationsFromTemplates g t.specifications 0
            (c + 4)).1.bind specIds) := rfl
  have hsnd : (createRangeFromTemplate g t s c).2 =
      (createSpecificationsFromTemplates g t.specifications 0 (c + 4)).2 :=
    rfl
  rw [hids, hsnd]
  constructor
  · omega
  · intro id hid
    rcases List.mem_cons.1 hid with rfl | hid
    · exact ⟨c, le_refl c, by omega, rfl⟩
    rcases List.mem_cons.1 hid with rfl | hid
    · exact ⟨c + 1, by omega, by omega, rfl⟩
    rcases List.mem_append.1 hid with hid' | hid'
    · obtain ⟨j, hj1, hj2, hj3⟩ :=
        (createParam_window g t.parameter (c + 2)).2 id hid'
      exact ⟨j, by omega, by omega, hj3⟩
    · obtain ⟨j, hj1, hj2, hj3⟩ := hsids id hid'
      exact ⟨j, by omega, hj2, hj3⟩

/-- Created range lists only advance the counter and draw every identifier
from the consumed window. -/
theorem createRanges_window (g : Nat → String) :
    ∀ (ts : List RangeTemplate) (i c : Nat),
      c ≤ (createRangesFromTemplates g ts i c).2 ∧
      ∀ id ∈ (createRangesFromTemplates g ts i c).1.bind rangeIds,
        ∃ j, c ≤ j ∧
          j < (createRangesFromTemplates g ts i c).2 ∧ id = g j := by
  intro ts
  induction ts with
  | nil =>
      intro i c
      refine ⟨le_refl c, ?_⟩
      intro id hid
      simp [createRangesFromTemplates] at hid
  | cons t ts ih =>
      intro i c
      obtain ⟨hrle, hrids⟩ := createRange_window g t i c
      obtain ⟨ihle, ihids⟩ := ih (i + 1) (createRangeFromTemplate g t i c).2
      have hfst : (createRangesFromTemplates g (t :: ts) i c).1 =
          (createRangeFromTemplate g t i c).1 ::
            (createRangesFromTemplates g ts (i + 1)
              (createRangeFromTemplate g t i c).2).1 := rfl
      have hsnd : (createRangesFromTemplates g (t :: ts) i c).2 =
          (createRangesFromTemplates g ts (i + 1)
            (createRangeFromTemplate g t i c).2).2 := rfl
      rw [hfst, hsnd]
      constructor
      · omega
      · intro id hid
        rcases List.mem_append.1 (by simpa [List.cons_bind] using hid :
            id ∈ rangeIds (createRangeFromTemplate g t i c).1 ++
              (createRangesFromTemplates g ts (i + 1)
                (createRangeFromTemplate g t i c).2).1.bind rangeIds)
            with hid' | hid'
        · obtain ⟨j, hj1, hj2, hj3⟩ := hrids id hid'
          exact ⟨j, hj1, by omega, hj3⟩
        · obtain ⟨j, hj1, hj2, hj3⟩ := ihids id hid'
          exact ⟨j, by omega, hj2, hj3⟩

/-- A created function tree only advances the counter and draws every
identifier, at every level, from the consumed window. -/
theorem createFunction_window (g : Nat → String) (t : FunctionTemplate)
    (s c : Nat) :
    c ≤ (createFunctionFromTemplate g t s c).2 ∧
    ∀ id ∈ funcIds (createFunctionFromTemplate g t s c).1,
      ∃ j, c ≤ j ∧ j < (createFunctionFromTemplate g t s c).2 ∧ id = g j := by
  obtain ⟨hrle, hrids⟩ := createRanges_window g t.ranges 0 (c + 2)
  have hids : funcIds (createFunctionFromTemplate g t s c).1 =
      g c :: g (c + 1) ::
        (createRangesFromTemplates g t.ranges 0 (c + 2)).1.bind rangeIds :=
    rfl
  have hsnd : (createFunctionFromTemplate g t s c).2 =
      (createRangesFromTemplates g t.ranges 0 (c + 2)).2 := rfl
  rw [hids, hsnd]
  constructor
  · omega
  · intro id hid
    rcases List.mem_cons.1 hid with rfl | hid
    · exact ⟨c, le_refl c, by omega, rfl⟩
    rcases List.mem_cons.1 hid with rfl | hid
    · exact ⟨c + 1, by omega, by omega, rfl⟩
    obtain ⟨j, hj1, hj2, hj3⟩ := hrids id hid
    exact ⟨j, by omega, hj2, hj3⟩

/-- Claim C5: two instantiations of one template — the second starting at
the counter the first left off, so that every generator call returns a value
distinct from all previously returned ones when the supply is injective —
produce entity trees with fully disjoint identifier sets at every level. -/
theorem instantiate_twice_disjoint_ids (g : Nat → String)
    (hg : Function.Injective g) (template : FunctionTemplate)
    (s1 s2 c : Nat) :
    List.Disjoint
      (funcIds (createFunctionFromTemplate g template s1 c).1)
      (funcIds (createFunctionFromTemplate g template s2
        (createFunctionFromTemplate g template s1 c).2).1) := by
  intro id h1 h2
  obtain ⟨j1, hj1a, hj1b, rfl⟩ :=
    (createFunction_window g template s1 c).2 id h1
  obtain ⟨j2, hj2a, hj2b, heq⟩ :=
    (createFunction_window g template s2
      (createFunctionFromTemplate g template s1 c).2).2 _ h2
  have hj : j1 = j2 := hg heq
  omega

/-- Witness for C5: a concrete injective supply and a one-range template
give disjoint identifier sets across two instantiations. -/
theorem instantiate_twice_disjoint_ids_witness :
    List.Disjoint
      (funcIds (createFunctionFromTemplate
        (fun n => String.mk (List.replicate n ('A')))
        ⟨("F"), none, "", "", false,
          [⟨("R"), "", "", true, ⟨0, 100, ("volt"), ("V"), true, ""⟩,
            []⟩]⟩ 0 0).1)
      (funcIds (createFunctionFromTemplate
        (fun n => String.mk (List.replicate n ('A')))
        ⟨("F"), none, "", "", false,
          [⟨("R"), "", "", true, ⟨0, 100, ("volt"), ("V"), true, ""⟩,
            []⟩]⟩ 1
        (createFunctionFromTemplate
          (fun n => String.mk (List.replicate n ('A')))
          ⟨("F"), none, "", "", false,
            [⟨("R"), "", "", true, ⟨0, 100, ("volt"), ("V"), true, ""⟩,
              []⟩]⟩ 0 0).2).1) :=
  instantiate_twice_disjoint_ids
    (fun n => String.mk (List.replicate n ('A')))
    (fun a b hab => by
      have hlen := congrArg (fun s : String => s.data.length) hab
      simpa using hlen)
    _ 0 1 0

/-! ## Theorems: parser and serializer -/

/-- Reading back a printed digit. -/
theorem charToDigit_digitToChar (d : Nat) (hd : d < 10) :
    charToDigit? (digitToChar d) = some d := by
  interval_cases d <;> rfl

/-- A printed number is never empty. -/
theorem natToChars_ne_nil (n : Nat) : natToChars n ≠ [] := by
  rw [natToChars]
  split
  · simp
  · simp

/-- Every character of a printed number is a digit. -/
theorem natToChars_all_digits :
    ∀ n : Nat,
      (natToChars n).all (fun c => (charToDigit? c).isSome) = true := by
  intro n
  induction n using Nat.strong_induction_on with
  | _ n ih =>
      rw [natToChars]
      split
      · next h =>
          simp [charToDigit_digitToChar n h]
      · next h =>
          rw [List.all_append]
          have h1 := ih (n / 10) (by omega)
          have h2 := charToDigit_digitToChar (n % 10) (by omega)
          simp [h1, h2]

/-- Folding the digit reader over a printed number recovers the number. -/
theorem natToChars_foldl :
    ∀ (n : Nat) (a : Nat),
      (natToChars n).foldl (fun a c => 10 * a + (charToDigit? c).getD 0) a =
        a * 10 ^ (natToChars n).length + n := by
  intro n
  induction n using Nat.strong_induction_on with
  | _ n ih =>
      intro a
      rw [natToChars]
      split
      · next h =>
          simp [charToDigit_digitToChar n h]
          omega
      · next h =>
          rw [List.foldl_append, ih (n / 10) (by omega) a,
            List.length_append]
          have h2 := charToDigit_digitToChar (n % 10) (by omega)
          simp only [List.foldl_cons, List.foldl_nil, h2, Option.getD_some,
            List.length_singleton]
          have hdm := Nat.div_add_mod n 10
          have hpow : 10 ^ ((natToChars (n / 10)).length + 1) =
              10 ^ (natToChars (n / 10)).length * 10 := by
            rw [pow_succ]
          rw [hpow]
          set X := 10 ^ (natToChars (n / 10)).length with hX
          calc 10 * (a * X + n / 10) + n % 10
              = a * (X * 10) + (10 * (n / 10) + n % 10) := by ring
            _ = a * (X * 10) + n := by rw [hdm]

/-- Decimal print then read is the identity. -/
theorem charsToNat?_natToChars (n : Nat) :
    charsToNat? (natToChars n) = some n := by
  unfold charsToNat?
  rw [if_pos ⟨natToChars_ne_nil n, natToChars_all_digits n⟩]
  rw [natToChars_foldl n 0]
  simp

/-- Sequencing in the error monad hits `ok` exactly through an `ok` step. -/
theorem except_bind_ok {ε α β : Type} (e : Except ε α) (f : α → Except ε β)
    (v : β) :
    (e >>= f = Except.ok v) ↔
      ∃ a, e = Except.ok a ∧ f a = Except.ok v := by
  cases e <;> simp [Bind.bind, Except.bind]

/-- Parsing back a serialized list succeeds pointwise. -/
theorem mapM_map_ok {α β : Type} (p : β → Except String α) (f : α → β) :
    ∀ (l : List α), (∀ a ∈ l, p (f a) = Except.ok a) →
      (l.map f).mapM p = Except.ok l := by
  intro l
  induction l with
  | nil => intro _; rfl
  | cons a as ih =>
      intro h
      rw [List.map_cons, List.mapM_cons, h a (List.mem_cons_self a as),
        ih (fun b hb => h b (List.mem_cons_of_mem _ hb))]
      rfl

/-- Every element of a successful `mapM` output comes from one parse. -/
theorem mapM_ok_forall {α β : Type} (p : α → Except String β) :
    ∀ (l : List α) (ys : List β), l.mapM p = Except.ok ys →
      ∀ y ∈ ys, ∃ x, p x = Except.ok y := by
  intro l
  induction l with
  | nil =>
      intro ys h y hy
      rw [List.mapM_nil] at h
      injection h with h
      subst h
      simp at hy
  | cons a as ih =>
      intro ys h y hy
      rw [List.mapM_cons] at h
      rw [except_bind_ok] at h
      obtain ⟨b, hb, h⟩ := h
      rw [except_bind_ok] at h
      obtain ⟨bs, hbs, h⟩ := h
      have : b :: bs = ys := by
        injection h
      subst this
      rcases List.mem_cons.1 hy with rfl | hy'
      · exact ⟨a, hb⟩
      · exact ih bs hbs y hy'

/-- Reading the field written at the head of the child list. -/
theorem fieldText_cons_eq (n s : String) (rest : List XNode) :
    fieldText n (txtEl n s :: rest) = some s := by
  simp [fieldText, txtEl, contentOf]

/-- Reading a field skips a text element with a different name. -/
theorem fieldText_cons_ne {n m : String} (s : String) (rest : List XNode)
    (h : ¬m = n) :
    fieldText n (txtEl m s :: rest) = fieldText n rest := by
  simp [fieldText, txtEl, h]

/-- Collecting named children skips a text element of a different name. -/
theorem elemsNamed_cons_ne {n m : String} (ts : List XNode)
    (rest : List XNode) (h : ¬m = n) :
    elemsNamed n (XNode.elem m ts :: rest) = elemsNamed n rest := by
  simp [elemsNamed, isElemNamed, h]

/-- Collecting named children keeps an element of that name. -/
theorem elemsNamed_cons_eq (n : String) (ts : List XNode)
    (rest : List XNode) :
    elemsNamed n (XNode.elem n ts :: rest) =
      XNode.elem n ts :: elemsNamed n rest := by
  simp [elemsNamed, isElemNamed]

/-- Serialized siblings of the collected name are all kept, in order. -/
theorem elemsNamed_map_all {α : Type} {n : String} {f : α → XNode}
    (hall : ∀ a, isElemNamed n (f a) = true) (l : List α) :
    elemsNamed n (l.map f) = l.map f := by
  rw [elemsNamed, List.filter_eq_self]
  intro a ha
  obtain ⟨b, _, rfl⟩ := List.mem_map.1 ha
  exact hall b

/-- Serialized siblings of another name are all skipped. -/
theorem elemsNamed_map_none {α : Type} {n : String} {f : α → XNode}
    (hall : ∀ a, isElemNamed n (f a) = false) (l : List α) :
    elemsNamed n (l.map f) = [] := by
  rw [elemsNamed, List.filter_eq_nil_iff]
  intro a ha
  obtain ⟨b, _, rfl⟩ := List.mem_map.1 ha
  simp [hall b]

/-- The name test of an element node, as a decidable comparison. -/
theorem isElemNamed_elem (n m : String) (ts : List XNode) :
    isElemNamed n (XNode.elem m ts) = decide (m = n) := rfl

/-- The boolean sentinel round-trips: true through "-1", false through
"0". -/
theorem decode_encode_bool (b : Bool) :
    decodeMOXBool (encodeMOXBool b) = b := by
  cases b <;> rfl

/-- Serializing then parsing a specification is the identity. -/
theorem parse_serialize_specification (s : DocSpecification) :
    parseMOXSpecification (serializeMOXSpecification s) = Except.ok s := by
  simp [serializeMOXSpecification, parseMOXSpecification, req, txtEl,
    fieldText, contentOf, charsToNat?_natToChars, Bind.bind, Except.bind]

/-- Serializing then parsing a parameter is the identity. -/
theorem parse_serialize_parameter (p : DocParameter) :
    parseMOXParameter (serializeMOXParameter p) = Except.ok p := by
  simp [serializeMOXParameter, parseMOXParameter, req, txtEl,
    fieldText, contentOf, charsToNat?_natToChars, decode_encode_bool,
    Bind.bind, Except.bind]

/-- Serializing then parsing a range is the identity: the singular
parameter section and the repeated specification siblings are recovered. -/
theorem parse_serialize_range (r : DocRange) :
    parseMOXRange (serializeMOXRange r) = Except.ok r := by
  have hparam : List.filter (isElemNamed ("parameter"))
      (r.specifications.map serializeMOXSpecification) = [] :=
    elemsNamed_map_none
      (fun a => by simp [serializeMOXSpecification, isElemNamed]) _
  have hspecs : List.filter (isElemNamed ("specification"))
      (r.specifications.map serializeMOXSpecification) =
      r.specifications.map serializeMOXSpecification :=
    elemsNamed_map_all
      (fun a => by simp [serializeMOXSpecification, isElemNamed]) _
  have hmapM : List.mapM.loop parseMOXSpecification
      (r.specifications.map serializeMOXSpecification) [] =
      Except.ok r.specifications :=
    mapM_map_ok _ _ _ (fun a _ => parse_serialize_specification a)
  have hp : parseMOXParameter (serializeMOXParameter r.parameter) =
      Except.ok r.parameter := parse_serialize_parameter r.parameter
  have hn1 : isElemNamed ("parameter") (serializeMOXParameter r.parameter)
      = true := rfl
  have hn2 : isElemNamed ("specification")
      (serializeMOXParameter r.parameter) = false := rfl
  simp [serializeMOXRange, parseMOXRange, req, txtEl, fieldText, contentOf,
    elemsNamed, isElemNamed_elem, List.filter_cons, List.filter_append,
    charsToNat?_natToChars, Bind.bind, Except.bind, hparam, hspecs, hmapM,
    hp, hn1, hn2]

/-- Serializing then parsing a function is the identity on normalized
functions: the absent modifier goes out as the empty pair and normalizes
back to absent; a non-empty modifier survives; ranges are recovered. -/
theorem parse_serialize_function (f : DocFunction)
    (hf : f.modifier ≠ some "") :
    parseMOXFunction (serializeMOXFunction f) = Except.ok f := by
  have hranges : List.filter (isElemNamed ("range"))
      (f.ranges.map serializeMOXRange) = f.ranges.map serializeMOXRange :=
    elemsNamed_map_all
      (fun a => by simp [serializeMOXRange, isElemNamed]) _
  have hmapM : List.mapM.loop parseMOXRange
      (f.ranges.map serializeMOXRange) [] = Except.ok f.ranges :=
    mapM_map_ok _ _ _ (fun a _ => parse_serialize_range a)
  obtain ⟨pui, dui, sequence, functionname, modifier, isoutput, verified,
    ranges⟩ := f
  rcases modifier with _ | m
  · simp only at hranges hmapM
    simp [serializeMOXFunction, parseMOXFunction, req, txtEl, fieldText,
      contentOf, elemsNamed, isElemNamed_elem, List.filter_cons,
      List.filter_append, charsToNat?_natToChars, decode_encode_bool,
      Bind.bind, Except.bind, hranges, hmapM]
  · have hm' : ¬(m = "") := fun h => hf (by rw [h])
    simp only at hranges hmapM
    simp [serializeMOXFunction, parseMOXFunction, req, txtEl, fieldText,
      contentOf, elemsNamed, isElemNamed_elem, List.filter_cons,
      List.filter_append, charsToNat?_natToChars, decode_encode_bool,
      Bind.bind, Except.bind, hranges, hmapM, hm']

/-- Serializing then parsing the header is the identity. -/
theorem parse_serialize_header (h : DocHeader) :
    parseMOXHeader (serializeMOXHeader h) = Except.ok h := by
  simp [serializeMOXHeader, parseMOXHeader, req, txtEl, fieldText,
    contentOf, Bind.bind, Except.bind]

/-- Serializing then parsing a whole normalized document is the identity. -/
theorem parse_serialize_instrument (t : DocInstrument)
    (ht : DocInstrumentWF t) :
    parseMSFXML (serializeMSFToXML t) = Except.ok t := by
  have hfuncs : List.filter (isElemNamed ("function"))
      (t.functions.map serializeMOXFunction) =
      t.functions.map serializeMOXFunction :=
    elemsNamed_map_all
      (fun a => by simp [serializeMOXFunction, isElemNamed]) _
  have hhdrnone : List.filter (isElemNamed ("header"))
      (t.functions.map serializeMOXFunction) = [] :=
    elemsNamed_map_none
      (fun a => by simp [serializeMOXFunction, isElemNamed]) _
  have hmapM : List.mapM.loop parseMOXFunction
      (t.functions.map serializeMOXFunction) [] = Except.ok t.functions :=
    mapM_map_ok _ _ _ (fun a ha => parse_serialize_function a (ht a ha))
  have hh : parseMOXHeader (serializeMOXHeader t.header) =
      Except.ok t.header := parse_serialize_header t.header
  have hn1 : isElemNamed ("header") (serializeMOXHeader t.header) = true :=
    rfl
  have hn2 : isElemNamed ("function") (serializeMOXHeader t.header) =
      false := rfl
  simp [serializeMSFToXML, parseMSFXML, req, txtEl, fieldText, contentOf,
    elemsNamed, isElemNamed_elem, List.filter_cons, List.filter_append,
    decode_encode_bool, Bind.bind, Except.bind, hfuncs, hhdrnone, hmapM,
    hh, hn1, hn2]

/-- A parsed function never carries the explicit empty modifier: parsing
normalizes it to the absent value. -/
theorem parseMOXFunction_wf {x : XNode} {f : DocFunction}
    (h : parseMOXFunction x = Except.ok f) : f.modifier ≠ some "" := by
  rcases x with ⟨name, cs⟩ | s
  · by_cases hname : name = ("function")
    · rw [parseMOXFunction] at h
      rw [if_pos hname] at h
      simp only [except_bind_ok] at h
      obtain ⟨pui, -, dui, -, seqText, -, sequence, -, functionname, -,
        modRaw, -, outText, -, verText, -, ranges, -, hok⟩ := h
      injection hok with hok
      subst hok
      by_cases hraw : modRaw = "" <;> simp [hraw]
    · rw [parseMOXFunction, if_neg hname] at h
      cases h
  · rw [parseMOXFunction] at h
    cases h

/-- Every parse result is normalized. -/
theorem parseMSFXML_wf {x : XNode} {t : DocInstrument}
    (h : parseMSFXML x = Except.ok t) : DocInstrumentWF t := by
  rcases x with ⟨name, cs⟩ | s
  · by_cases hname : name = ("instrument")
    · rw [parseMSFXML] at h
      rw [if_pos hname] at h
      simp only [except_bind_ok] at h
      obtain ⟨pui, -, dui, -, verText, -, hnode, -, header, -, functions,
        hfns, hok⟩ := h
      injection hok with hok
      subst hok
      intro f hf
      obtain ⟨xf, hxf⟩ := mapM_ok_forall parseMOXFunction _ _ hfns f hf
      exact parseMOXFunction_wf hxf
    · rw [parseMSFXML, if_neg hname] at h
      cases h
  · rw [parseMSFXML] at h
    cases h

/-- Claim C1: for any well-formed input (a wire tree the parser accepts),
parse, serialize, parse returns the first parse exactly — so in particular
the document-order identifier list of the re-parse equals that of the
original parse, order and values. -/
theorem parse_serialize_parse_roundtrip (x : XNode) (t : DocInstrument)
    (h : parseMSFXML x = Except.ok t) :
    parseMSFXML (serializeMSFToXML t) = Except.ok t ∧
    (parseMSFXML (serializeMSFToXML t)).map extractAllUUIDs =
      Except.ok (extractAllUUIDs t) := by
  have hrt := parse_serialize_instrument t (parseMSFXML_wf h)
  exact ⟨hrt, by rw [hrt]; rfl⟩

/-- Witness for C1: a concrete one-function document with a range, a
parameter and a specification round-trips to itself, identifiers included. -/
theorem parse_serialize_parse_roundtrip_witness :
    parseMSFXML (serializeMSFToXML
      ⟨("IP"), ("ID"), true, ⟨("HP"), ("HD"), ("M1"), ("ACME")⟩,
       [⟨("FP"), ("FD"), 0, ("Voltage"), none, false, false,
         [⟨("RP"), ("RD"), 0, ("R1"),
           ⟨("PP"), ("PD"), 0, ("volt"), true⟩,
           [⟨("SP"), ("SD"), 0, ("Accuracy")⟩]⟩]⟩]⟩) =
      Except.ok
      ⟨("IP"), ("ID"), true, ⟨("HP"), ("HD"), ("M1"), ("ACME")⟩,
       [⟨("FP"), ("FD"), 0, ("Voltage"), none, false, false,
         [⟨("RP"), ("RD"), 0, ("R1"),
           ⟨("PP"), ("PD"), 0, ("volt"), true⟩,
           [⟨("SP"), ("SD"), 0, ("Accuracy")⟩]⟩]⟩]⟩ :=
  (parse_serialize_parse_roundtrip
    (XNode.elem ("instrument")
      [txtEl ("pui") ("IP"), txtEl ("dui") ("ID"),
       txtEl ("verified") ("-1"),
       XNode.elem ("header")
         [txtEl ("pui") ("HP"), txtEl ("dui") ("HD"),
          txtEl ("model") ("M1"), txtEl ("manufacturer") ("ACME")],
       XNode.elem ("function")
         [txtEl ("pui") ("FP"), txtEl ("dui") ("FD"),
          txtEl ("sequence") ("0"), txtEl ("functionname") ("Voltage"),
          txtEl ("modifier") (""), txtEl ("isoutput") ("0"),
          txtEl ("verified") ("0"),
          XNode.elem ("range")
            [txtEl ("pui") ("RP"), txtEl ("dui") ("RD"),
             txtEl ("sequence") ("0"), txtEl ("rangename") ("R1"),
             XNode.elem ("parameter")
               [txtEl ("pui") ("PP"), txtEl ("dui") ("PD"),
                txtEl ("sequence") ("0"),
                txtEl ("unitofmeasure") ("volt"),
                txtEl ("isbipolar") ("-1")],
             XNode.elem ("specification")
               [txtEl ("pui") ("SP"), txtEl ("dui") ("SD"),
                txtEl ("sequence") ("0"),
                txtEl ("spectype") ("Accuracy")]]]])
    ⟨("IP"), ("ID"), true, ⟨("HP"), ("HD"), ("M1"), ("ACME")⟩,
       [⟨("FP"), ("FD"), 0, ("Voltage"), none, false, false,
         [⟨("RP"), ("RD"), 0, ("R1"),
           ⟨("PP"), ("PD"), 0, ("volt"), true⟩,
           [⟨("SP"), ("SD"), 0, ("Accuracy")⟩]⟩]⟩]⟩
    (by rfl)).1
